import Mathlib

/-!
Shallow embedding of the okx-trade-simulator core, used to check the
natural-language specification against the code.

Sources embedded (numeric values are modelled in ℚ; Python floats become
exact rationals, wall-clock timestamps and logging are outside the model):

* `src/data/order_book.py`   — class `OrderBook` (symbol-based, `_update_side`,
  `_estimate_price_impact`, features).  Embedded as `OrderBookG`.
* `src/data/orderbook.py`    — the duplicate class `OrderBook` (SortedDict with
  negated bid keys, `calculate_market_order_cost`).  Embedded as `OrderBookQ`.
* `src/models/fee_model.py`, `slippage_model.py`, `maker_taker_model.py`,
  `market_impact_model.py` — the four cost models (unfitted default-coefficient
  paths, the only paths the simulation engine exercises since `fit` is never
  called).  `np.exp` and `math.sqrt`/`** 0.5` are library calls outside the
  embedded code, so they are passed in as function parameters `pexp`, `psqrt`.
* `src/models/simulation_engine.py` — `SimulationEngine.process_tick`.
* `src/websocket/connector.py` — the retry logic of `_maintain_connection`,
  embedded as a step function on a connector state.

Python operations that can raise are embedded in `Except String`; a
`try/except` becomes a `match` on the `Except` value.
-/

/-- A raw price/quantity token as it arrives in a snapshot.  `float(tok)`
succeeds exactly on `num` tokens (with the parsed rational) and raises
`ValueError`/`TypeError` on `nonNum` tokens. -/
inductive Tok
  | num (q : ℚ)
  | nonNum (s : String)
deriving DecidableEq, Repr

/-- Python `float(tok)` with the per-token failure made explicit. -/
def parseFloat : Tok → Option ℚ
  | .num q => some q
  | .nonNum _ => none

/-- Python `float(tok)` in a context where the exception propagates. -/
def parseFloatE : Tok → Except String ℚ
  | .num q => .ok q
  | .nonNum s => .error ("could not convert string to float: " ++ s)

/-- Python `str.lower()` (ASCII lowering is all the call sites compare). -/
def strLower (s : String) : String := String.mk (s.data.map Char.toLower)

/-- `SortedDict` assignment `d[k] = v`: insertion into an association list
kept strictly ascending by key, replacing the value on an equal key. -/
def insertKey {V : Type} : List (ℚ × V) → ℚ → V → List (ℚ × V)
  | [], k, v => [(k, v)]
  | (k', v') :: rest, k, v =>
    if k < k' then (k, v) :: (k', v') :: rest
    else if k = k' then (k, v) :: rest
    else (k', v') :: insertKey rest k v

/-- Keys of an association list are strictly ascending (the `SortedDict`
representation invariant: sorted iteration, at most one value per key). -/
def KeysAsc {V : Type} (l : List (ℚ × V)) : Prop :=
  List.Pairwise (fun a b => a.1 < b.1) l

theorem insertKey_mem {V : Type} (l : List (ℚ × V)) (k : ℚ) (v : V) :
    ∀ x ∈ insertKey l k v, x ∈ l ∨ x = (k, v) := by
  induction l with
  | nil => intro x hx; simp [insertKey] at hx; simp [hx]
  | cons hd tl ih =>
    intro x hx
    simp only [insertKey] at hx
    by_cases h1 : k < hd.1
    · simp [h1] at hx
      rcases hx with h | h | h
      · right; simp [h]
      · left; simp [h]
      · left; simp [h]
    · by_cases h2 : k = hd.1
      · simp [h1, h2] at hx
        rcases hx with h | h
        · right; simp [h, h2]
        · left; simp [h]
      · simp [h1, h2] at hx
        rcases hx with h | h
        · left; simp [h]
        · rcases ih x h with h' | h'
          · left; simp [h']
          · right; exact h'

theorem insertKey_keysAsc {V : Type} (l : List (ℚ × V)) (k : ℚ) (v : V)
    (hl : KeysAsc l) : KeysAsc (insertKey l k v) := by
  induction l with
  | nil => simp [insertKey, KeysAsc]
  | cons hd tl ih =>
    have htl : KeysAsc tl := (List.pairwise_cons.mp hl).2
    have hhd : ∀ b ∈ tl, hd.1 < b.1 := (List.pairwise_cons.mp hl).1
    simp only [insertKey]
    by_cases h1 : k < hd.1
    · simp only [if_pos h1]
      refine List.pairwise_cons.mpr ⟨?_, hl⟩
      intro b hb
      rcases List.mem_cons.mp hb with h | h
      · simpa [h] using h1
      · exact lt_trans h1 (hhd b h)
    · by_cases h2 : k = hd.1
      · simp only [if_neg h1, if_pos h2]
        refine List.pairwise_cons.mpr ⟨?_, htl⟩
        intro b hb; rw [h2]; exact hhd b hb
      · simp only [if_neg h1, if_neg h2]
        refine List.pairwise_cons.mpr ⟨?_, ih htl⟩
        intro b hb
        rcases insertKey_mem tl k v b hb with h | h
        · exact hhd b h
        · rw [h]
          rcases lt_trichotomy k hd.1 with h' | h' | h'
          · exact absurd h' h1
          · exact absurd h' h2
          · exact h'

theorem insertKey_val {V : Type} (P : V → Prop) (l : List (ℚ × V)) (k : ℚ) (v : V)
    (hl : ∀ x ∈ l, P x.2) (hv : P v) : ∀ x ∈ insertKey l k v, P x.2 := by
  intro x hx
  rcases insertKey_mem l k v x hx with h | h
  · exact hl x h
  · rw [h]; exact hv

/-! ## `src/data/order_book.py` — class `OrderBook` (embedded as `OrderBookG`) -/

/-- One iteration of the level loop in `OrderBook._update_side`
(order_book.py, lines 100-120): a level with fewer than two entries is
skipped, a price/quantity that fails `float` parsing is skipped (logged in
the source), a level with quantity ≤ 0 is skipped, otherwise
`side[price] = quantity`. -/
def updateSideStep (side : List (ℚ × ℚ)) (level : List Tok) : List (ℚ × ℚ) :=
  match level with
  | price_tok :: qty_tok :: _ =>
    match parseFloat price_tok, parseFloat qty_tok with
    | some price, some quantity =>
      if quantity ≤ 0 then side else insertKey side price quantity
    | _, _ => side
  | _ => side

/-- Depth truncation at the end of `_update_side` (lines 122-130): bids pop
the lowest keys from the front, asks pop the highest keys from the back,
until at most `max_depth` levels remain. -/
def trimSide (side : List (ℚ × ℚ)) (max_depth : ℕ) (is_bid : Bool) : List (ℚ × ℚ) :=
  if is_bid then side.drop (side.length - max_depth) else side.take max_depth

/-- `OrderBook._update_side` (order_book.py, lines 87-130): the side is
cleared and rebuilt from the incoming levels, then trimmed. -/
def updateSideG (levels : List (List Tok)) (max_depth : ℕ) (is_bid : Bool) : List (ℚ × ℚ) :=
  trimSide (levels.foldl updateSideStep []) max_depth is_bid

/-- The value found under the `asks`/`bids` key of a tick dictionary: either a
proper list of levels, or some other object (whose iteration raises
`TypeError`), remembering only its truthiness. -/
inductive PyList
  | list (levels : List (List Tok))
  | notIter (truthy : Bool)
deriving DecidableEq, Repr

/-- Python truthiness of a side payload (`if asks:`). -/
def PyList.truthy : PyList → Bool
  | .list l => !l.isEmpty
  | .notIter t => t

/-- A tick as consumed by `OrderBook.update` in order_book.py.  The timestamp
is modelled after its string-to-float conversion (lines 55-64); the
wall-clock fallback is outside the model. -/
structure TickG where
  timestamp : ℚ
  asks : PyList
  bids : PyList
deriving DecidableEq, Repr

/-- State of the order_book.py `OrderBook`. -/
structure OrderBookG where
  symbol : String
  max_depth : ℕ
  asks : List (ℚ × ℚ)
  bids : List (ℚ × ℚ)
  last_update_time : ℚ
  is_initialized : Bool
  mid_price : Option ℚ
deriving DecidableEq, Repr

/-- `OrderBook.__init__` (order_book.py). -/
def OrderBookG.init (symbol : String) (max_depth : ℕ) : OrderBookG :=
  { symbol := symbol, max_depth := max_depth, asks := [], bids := [],
    last_update_time := 0, is_initialized := false, mid_price := none }

/-- `if asks: self._update_side(asks, ...)` — a falsy payload leaves the side
unchanged, a truthy non-list raises when iterated. -/
def updSideE (payload : PyList) (old : List (ℚ × ℚ)) (max_depth : ℕ) (is_bid : Bool) :
    Except String (List (ℚ × ℚ)) :=
  if payload.truthy then
    match payload with
    | .list levels => .ok (updateSideG levels max_depth is_bid)
    | .notIter _ => .error "TypeError: object is not iterable"
  else .ok old

/-- `OrderBook._calculate_mid_price` (order_book.py, lines 132-146): `None`
when either side is empty or a best price is falsy (Python `if best_bid and
best_ask:`), else the average of best bid (last key) and best ask (first
key). -/
def calcMid (bids asks : List (ℚ × ℚ)) : Option ℚ :=
  if bids.isEmpty ∨ asks.isEmpty then none
  else
    match bids.getLast?, asks.head? with
    | some bb, some ba =>
      if bb.1 ≠ 0 ∧ ba.1 ≠ 0 then some ((bb.1 + ba.1) / 2) else none
    | _, _ => none

/-- `OrderBook.update` (order_book.py, lines 46-85): update asks, then bids,
then the timestamp and the cached mid price, and set `is_initialized`. -/
def OrderBookG.update (g : OrderBookG) (t : TickG) : Except String OrderBookG := do
  let asks ← updSideE t.asks g.asks g.max_depth false
  let bids ← updSideE t.bids g.bids g.max_depth true
  .ok { g with
        asks := asks
        bids := bids
        last_update_time := t.timestamp
        mid_price := calcMid bids asks
        is_initialized := true }

/-- `OrderBook.get_mid_price` (order_book.py, lines 148-158): returns the
NUMBER 0 (not an absent value) when the book is uninitialized or a side is
empty, and `self.mid_price if self.mid_price else 0` otherwise. -/
def OrderBookG.get_mid_price (g : OrderBookG) : ℚ :=
  if ¬ g.is_initialized ∨ g.bids.isEmpty ∨ g.asks.isEmpty then 0
  else
    match g.mid_price with
    | some m => if m = 0 then 0 else m
    | none => 0

/-- Best bid of the order_book.py book: highest price key (`peekitem(-1)`). -/
def OrderBookG.best_bid (g : OrderBookG) : Option ℚ :=
  match g.bids.getLast? with
  | some e => some e.1
  | none => none

/-- Best ask of the order_book.py book: lowest price key (`peekitem(0)`). -/
def OrderBookG.best_ask (g : OrderBookG) : Option ℚ :=
  match g.asks.head? with
  | some e => some e.1
  | none => none

/-- Sum of the quantities of a side fragment. -/
def sumQty (l : List (ℚ × ℚ)) : ℚ := (l.map (fun x => x.2)).sum

/-- The mid price recomputed from the sides inside `_estimate_price_impact`
(order_book.py, line 229). -/
def midFromSides (g : OrderBookG) : ℚ :=
  match g.bids.getLast?, g.asks.head? with
  | some bb, some ba => (bb.1 + ba.1) / 2
  | _, _ => 0

/-- The fill loop of `OrderBook._estimate_price_impact` (order_book.py,
lines 247-254), in base-asset units.  Returns the accumulated cost and the
remaining size after the loop. -/
def walkAssetCost : List (ℚ × ℚ) → ℚ → ℚ × ℚ
  | [], r => (0, r)
  | (price, qty) :: rest, r =>
    if r ≤ 0 then (0, r)
    else
      let taken := min r qty
      let cr := walkAssetCost rest (r - taken)
      (taken * price + cr.1, cr.2)

/-- `OrderBook._estimate_price_impact` (order_book.py, lines 208-275).  If
the requested size cannot be filled, the remainder is costed at the last
available price; the average is taken over the FULL requested size; a size
of 0 hits the `ZeroDivisionError` handler, which returns 0. -/
def OrderBookG.estimate_price_impact (g : OrderBookG) (size : ℚ) (is_buy : Bool) : ℚ :=
  if ¬ g.is_initialized ∨ g.bids.isEmpty ∨ g.asks.isEmpty then 0
  else
    let mid1 : ℚ :=
      match g.mid_price with
      | some m => if m = 0 then midFromSides g else m
      | none => midFromSides g
    if mid1 = 0 then 0
    else
      let book_side := if is_buy then g.asks else g.bids
      let items := if is_buy then g.asks else g.bids.reverse
      let wr := walkAssetCost items size
      if 0 < wr.2 ∧ book_side.isEmpty then 1 / 20
      else
        let last_price :=
          match items.getLast? with
          | some l => l.1
          | none => if is_buy then mid1 * (21 / 20) else mid1 * (19 / 20)
        let total_cost := if 0 < wr.2 then wr.1 + wr.2 * last_price else wr.1
        if size = 0 then 0
        else |total_cost / size - mid1| / mid1

/-- `OrderBook.get_order_book_features` (order_book.py, lines 323-385).
Returns the empty map when the book is uninitialized or a side is empty;
a zero mid price makes the `spread_pct` division raise, which the outer
`except` turns into the empty map as well. -/
def OrderBookG.get_order_book_features (g : OrderBookG) : List (String × ℚ) :=
  if ¬ g.is_initialized ∨ g.bids.isEmpty ∨ g.asks.isEmpty then []
  else
    match g.bids.getLast?, g.asks.head? with
    | some best_bid, some best_ask =>
      let mid_price := (best_bid.1 + best_ask.1) / 2
      if mid_price = 0 then []
      else
        let spread := best_ask.1 - best_bid.1
        let spread_pct := spread / mid_price * 100
        let bid_volume := sumQty g.bids
        let ask_volume := sumQty g.asks
        let total_volume := bid_volume + ask_volume
        let bid_ask_imbalance :=
          if 0 < total_volume then (bid_volume - ask_volume) / total_volume else 0
        let depthFeat := fun (d : ℕ) =>
          let bid_depth := sumQty (g.bids.reverse.take d)
          let ask_depth := sumQty (g.asks.take d)
          [("bid_depth_" ++ toString d, bid_depth),
           ("ask_depth_" ++ toString d, ask_depth),
           ("depth_imbalance_" ++ toString d,
            if 0 < bid_depth + ask_depth then (bid_depth - ask_depth) / (bid_depth + ask_depth)
            else 0)]
        let impactFeat := fun (s : ℕ) =>
          [("bid_impact_" ++ toString s, g.estimate_price_impact (s : ℚ) false),
           ("ask_impact_" ++ toString s, g.estimate_price_impact (s : ℚ) true)]
        [("mid_price", mid_price), ("spread", spread), ("spread_pct", spread_pct),
         ("bid_ask_imbalance", bid_ask_imbalance)]
          ++ depthFeat 1 ++ depthFeat 5 ++ depthFeat 10
          ++ impactFeat 1 ++ impactFeat 5 ++ impactFeat 10
    | _, _ => []

/-- Python `dict.get(key, default)` on a feature map. -/
def fget (features : List (String × ℚ)) (key : String) (default : ℚ) : ℚ :=
  match features.lookup key with
  | some v => v
  | none => default

/-! ## `src/data/orderbook.py` — the duplicate `OrderBook` (embedded as `OrderBookQ`) -/

/-- A tick as consumed by `OrderBook.update` in orderbook.py.  The
timestamp/exchange/symbol metadata assignments are outside the model. -/
structure TickQ where
  bids : List (List Tok)
  asks : List (List Tok)
deriving DecidableEq, Repr

/-- The tuple unpacking `for price_str, qty_str in ...` followed by
`float(price_str)` and `float(qty_str)` (orderbook.py, lines 46-48 and
55-57); any failure raises out of `update`. -/
def obParsePair : List Tok → Except String (ℚ × ℚ)
  | [price_str, qty_str] => do
    let price ← parseFloatE price_str
    let qty ← parseFloatE qty_str
    .ok (price, qty)
  | _ => .error "ValueError: wrong number of values to unpack"

/-- Rebuild of one side in `OrderBook.update` (orderbook.py, lines 44-59):
bids are stored under the negated price so that ascending key order is
descending price order; levels with quantity ≤ 0 are not stored.  A parse
failure aborts the whole update (`except ... raise`, lines 63-65). -/
def buildStepQ (is_bid : Bool) (side : List (ℚ × (ℚ × ℚ))) (lvl : List Tok) :
    Except String (List (ℚ × (ℚ × ℚ))) := do
  let pq ← obParsePair lvl
  .ok (if 0 < pq.2 then insertKey side (if is_bid then -pq.1 else pq.1) (pq.1, pq.2)
       else side)

def buildSideQ (pairs : List (List Tok)) (is_bid : Bool) :
    Except String (List (ℚ × (ℚ × ℚ))) :=
  pairs.foldlM (buildStepQ is_bid) []

/-- State of the orderbook.py `OrderBook`: each side is the `SortedDict`
contents in ascending key order; bid keys are negated prices, the stored
value is the `(price, quantity)` pair. -/
structure OrderBookQ where
  bids : List (ℚ × (ℚ × ℚ))
  asks : List (ℚ × (ℚ × ℚ))
deriving DecidableEq, Repr

/-- `OrderBook.__init__` (orderbook.py). -/
def OrderBookQ.empty : OrderBookQ := { bids := [], asks := [] }

/-- `OrderBook.update` (orderbook.py, lines 29-71): both sides are cleared
and rebuilt on every update; an exception is logged and re-raised, so a
single bad pair aborts the whole update. -/
def OrderBookQ.update (_b : OrderBookQ) (t : TickQ) : Except String OrderBookQ := do
  let bids ← buildSideQ t.bids true
  let asks ← buildSideQ t.asks false
  .ok { bids := bids, asks := asks }

/-- `OrderBook.get_best_bid` (orderbook.py, lines 73-78). -/
def OrderBookQ.get_best_bid (b : OrderBookQ) : Option ℚ :=
  match b.bids.head? with
  | some e => some (-e.1)
  | none => none

/-- `OrderBook.get_best_ask` (orderbook.py, lines 80-85). -/
def OrderBookQ.get_best_ask (b : OrderBookQ) : Option ℚ :=
  match b.asks.head? with
  | some e => some e.1
  | none => none

/-- `OrderBook.get_mid_price` (orderbook.py, lines 87-95): `None` when
either side is empty. -/
def OrderBookQ.get_mid_price (b : OrderBookQ) : Option ℚ :=
  match b.get_best_bid, b.get_best_ask with
  | some bb, some ba => some ((bb + ba) / 2)
  | _, _ => none

/-- The fill loop of `OrderBook.calculate_market_order_cost` (orderbook.py,
lines 170-213), walking `(price, qty)` levels in iteration order and
consuming USD notional greedily.  Returns `(total_cost, total_quantity)`;
the loop breaks once the remaining notional reaches 0, and simply stops when
the side is exhausted (the remainder is only logged, lines 216-217). -/
def walkUsd : List (ℚ × ℚ) → ℚ → ℚ × ℚ
  | [], _ => (0, 0)
  | (price, qty) :: rest, remaining =>
    let level_quantity_usd := price * qty
    let fill_quantity_usd := min remaining level_quantity_usd
    let fill_quantity_asset := fill_quantity_usd / price
    let remaining2 := remaining - fill_quantity_usd
    if remaining2 ≤ 0 then (fill_quantity_asset * price, fill_quantity_asset)
    else
      let cq := walkUsd rest remaining2
      (fill_quantity_asset * price + cq.1, fill_quantity_asset + cq.2)

/-- `OrderBook.calculate_market_order_cost` (orderbook.py, lines 146-226):
returns `(total_cost, average_price, slippage_percentage)`; `(0,0,0)` for a
non-positive order size or when no mid price is available. -/
def OrderBookQ.calculate_market_order_cost (b : OrderBookQ) (quantity_usd : ℚ)
    (is_buy : Bool) : ℚ × ℚ × ℚ :=
  if quantity_usd ≤ 0 then (0, 0, 0)
  else
    match b.get_mid_price with
    | none => (0, 0, 0)
    | some reference_price =>
      let levels := (if is_buy then b.asks else b.bids).map (fun e => e.2)
      let cq := walkUsd levels quantity_usd
      let average_price := if 0 < cq.2 then cq.1 / cq.2 else 0
      let slippage_percentage :=
        if is_buy then (average_price / reference_price - 1) * 100
        else (1 - average_price / reference_price) * 100
      (cq.1, average_price, slippage_percentage)

/-! ## `src/models/fee_model.py` — `FeeModel.calculate_fees` -/

/-- The OKX fee tier table (fee_model.py, lines 19-27). -/
def OKX_FEE_TIERS : List (String × (ℚ × ℚ)) :=
  [("Tier 1", (8 / 10000, 10 / 10000)),
   ("Tier 2", (6 / 10000, 8 / 10000)),
   ("Tier 3", (4 / 10000, 6 / 10000)),
   ("Tier 4", (2 / 10000, 4 / 10000)),
   ("Tier 5", (0, 2 / 10000))]

/-- The exchange table (fee_model.py, lines 31-34): only OKX is known. -/
def exchange_fee_tiers : List (String × List (String × (ℚ × ℚ))) :=
  [("OKX", OKX_FEE_TIERS)]

/-- A maker/taker proportion dictionary as passed to the fee model. -/
structure MakerTakerProportion where
  maker : ℚ
  taker : ℚ
deriving DecidableEq, Repr

/-- The record returned by `FeeModel.calculate_fees` (fee_model.py,
lines 100-108). -/
structure FeeResult where
  maker_fee_usd : ℚ
  taker_fee_usd : ℚ
  total_fee_usd : ℚ
  maker_fee_rate : ℚ
  taker_fee_rate : ℚ
  maker_proportion : ℚ
  taker_proportion : ℚ
deriving DecidableEq, Repr

/-- `FeeModel.calculate_fees` (fee_model.py, lines 36-108): an unknown
exchange falls back to OKX, an unknown tier falls back to `Tier 1`; given
proportions are renormalized to sum to 1 when their sum is positive; a
missing proportion argument defaults by order type. -/
def FeeModel.calculate_fees (exchange : String) (fee_tier : String)
    (order_type : String) (quantity_usd : ℚ)
    (maker_taker_proportion : Option MakerTakerProportion) : FeeResult :=
  let exchange1 := if (exchange_fee_tiers.lookup exchange).isSome then exchange else "OKX"
  let exchange_tiers := (exchange_fee_tiers.lookup exchange1).getD OKX_FEE_TIERS
  let fee_tier1 := if (exchange_tiers.lookup fee_tier).isSome then fee_tier else "Tier 1"
  let fee_rates := (exchange_tiers.lookup fee_tier1).getD (8 / 10000, 10 / 10000)
  let maker_fee_rate := fee_rates.1
  let taker_fee_rate := fee_rates.2
  let props :=
    match maker_taker_proportion with
    | none => if strLower order_type = "market" then ((0 : ℚ), (1 : ℚ)) else ((1 / 2 : ℚ), (1 / 2 : ℚ))
    | some mt =>
      let total_proportion := mt.maker + mt.taker
      if 0 < total_proportion then (mt.maker / total_proportion, mt.taker / total_proportion)
      else (mt.maker, mt.taker)
  let maker_fee_usd := quantity_usd * props.1 * maker_fee_rate
  let taker_fee_usd := quantity_usd * props.2 * taker_fee_rate
  { maker_fee_usd := maker_fee_usd
    taker_fee_usd := taker_fee_usd
    total_fee_usd := maker_fee_usd + taker_fee_usd
    maker_fee_rate := maker_fee_rate
    taker_fee_rate := taker_fee_rate
    maker_proportion := props.1
    taker_proportion := props.2 }

/-! ## `src/models/slippage_model.py` — `SlippageModel.predict_slippage`
(unfitted default-coefficient path, the only one the engine exercises) -/

/-- The record returned by `SlippageModel.predict_slippage`. -/
structure SlippageResult where
  slippage_percentage : ℚ
  slippage_usd : ℚ
deriving DecidableEq, Repr

/-- `SlippageModel.predict_slippage` (slippage_model.py, lines 80-159),
with the default coefficients of lines 45-51: the linear combination is
clamped at 0 and converted to USD as `quantity_usd * pct / 100`. -/
def SlippageModel.predict_slippage (order_book_features : List (String × ℚ))
    (quantity_usd : ℚ) (is_buy : Bool) (volatility : ℚ) : SlippageResult :=
  let spread_percentage := fget order_book_features "spread_percentage" (1 / 100)
  let depth :=
    if is_buy then fget order_book_features "ask_depth_5pct" 1
    else fget order_book_features "bid_depth_5pct" 1
  let volume_imbalance :=
    if is_buy then fget order_book_features "volume_imbalance" 0
    else -(fget order_book_features "volume_imbalance" 0)
  let size_to_depth0 := if 0 < depth then quantity_usd / depth else 1
  let size_to_depth := min size_to_depth0 1
  let slippage_percentage0 :=
    1 / 100 + (1 / 2) * spread_percentage + (4 / 5) * size_to_depth
      + (-(1 / 5)) * volume_imbalance + (3 / 10) * volatility
  let slippage_percentage := max 0 slippage_percentage0
  { slippage_percentage := slippage_percentage
    slippage_usd := quantity_usd * slippage_percentage / 100 }

/-! ## `src/models/maker_taker_model.py` — `MakerTakerModel.predict_proportion`
(unfitted default-coefficient path).  `np.exp` is a library call and is
passed in as the parameter `pexp`. -/

/-- The record returned by `MakerTakerModel.predict_proportion`. -/
structure MakerTakerResult where
  maker : ℚ
  taker : ℚ
deriving DecidableEq, Repr

/-- `MakerTakerModel.predict_proportion` (maker_taker_model.py,
lines 63-144) with the default coefficients of lines 28-34: a logistic
score `1 / (1 + exp(-z))`, then for market orders
`taker = max(taker, 0.9)`, and `maker = 1 - taker`. -/
def MakerTakerModel.predict_proportion (pexp : ℚ → ℚ)
    (order_book_features : List (String × ℚ)) (quantity_usd : ℚ)
    (order_type : String) (volatility : ℚ) : MakerTakerResult :=
  let spread_percentage := fget order_book_features "spread_percentage" (1 / 100)
  let bid_depth := fget order_book_features "bid_depth_5pct" 1
  let ask_depth := fget order_book_features "ask_depth_5pct" 1
  let avg_depth := (bid_depth + ask_depth) / 2
  let size_to_depth0 := if 0 < avg_depth then quantity_usd / avg_depth else 1
  let size_to_depth := min size_to_depth0 1
  let order_type_market : ℚ := if strLower order_type = "market" then 1 else 0
  let z := 2 + 2 * order_type_market + (1 / 2) * spread_percentage
    + (4 / 5) * size_to_depth + (3 / 10) * volatility
  let taker_probability0 := 1 / (1 + pexp (-z))
  let taker_probability :=
    if strLower order_type = "market" then max taker_probability0 (9 / 10)
    else taker_probability0
  { maker := 1 - taker_probability
    taker := taker_probability }

/-- The `except` fallback of `predict_proportion` (maker_taker_model.py,
lines 146-155): 100% taker for market orders, 80/20 maker/taker
otherwise. -/
def makerTakerErrorFallback (order_type : String) : MakerTakerResult :=
  if strLower order_type = "market" then { maker := 0, taker := 1 }
  else { maker := 4 / 5, taker := 1 / 5 }

/-! ## `src/models/market_impact_model.py` — `AlmgrenChrissModel`.
`math.sqrt` / `** 0.5` is a library call and is passed in as `psqrt`. -/

/-- The record returned by `AlmgrenChrissModel.calculate_market_impact`. -/
structure ImpactResult where
  temporary_impact_usd : ℚ
  permanent_impact_usd : ℚ
  total_impact_usd : ℚ
deriving DecidableEq, Repr

/-- `AlmgrenChrissModel.calculate_market_impact` (market_impact_model.py,
lines 39-121) with the default parameters `eta = gamma = 0.1`,
`default_time_horizon = 1.0`, `quantity_scaling = 1.0`. -/
def AlmgrenChrissModel.calculate_market_impact (psqrt : ℚ → ℚ)
    (quantity_usd : ℚ) (volatility : ℚ) (mid_price : Option ℚ)
    (time_horizon : Option ℚ) : ImpactResult :=
  let th := match time_horizon with
    | some t => if t ≤ 0 then 1 else t
    | none => 1
  let volatility_scaled := volatility * psqrt (th / (252 * 24 * 60 * 60))
  let quantity_asset := match mid_price with
    | some m => if 0 < m then quantity_usd / m else quantity_usd * 1
    | none => quantity_usd * 1
  let abs_quantity := |quantity_asset|
  let temporary_impact_factor := volatility_scaled * abs_quantity * psqrt (1 / th) * (1 / 10)
  let permanent_impact_factor := (1 / 10) * volatility_scaled * abs_quantity
  let midpos : Bool := match mid_price with
    | some m => decide (0 < m)
    | none => false
  let temporary_impact_usd :=
    if midpos then temporary_impact_factor * (mid_price.getD 0) else temporary_impact_factor
  let permanent_impact_usd :=
    if midpos then permanent_impact_factor * (mid_price.getD 0) else permanent_impact_factor
  { temporary_impact_usd := temporary_impact_usd
    permanent_impact_usd := permanent_impact_usd
    total_impact_usd := temporary_impact_usd + permanent_impact_usd }

/-! ## `src/models/simulation_engine.py` — `SimulationEngine.process_tick` -/

/-- The simulation parameter dictionary; `none` fields model missing keys,
read through `parameters.get(key, default)` (simulation_engine.py,
lines 93-98). -/
structure SimParams where
  exchange : Option String
  orderType : Option String
  quantityUSD : Option ℚ
  volatility : Option ℚ
  feeTier : Option String
deriving DecidableEq, Repr

/-- The success output record assembled by `process_tick`
(simulation_engine.py, lines 165-183); the wall-clock latency and
performance fields are outside the model. -/
structure SuccessOutput where
  expectedSlippageUSD : ℚ
  expectedFeesUSD : ℚ
  expectedMarketImpactUSD : ℚ
  netCostUSD : ℚ
  maker : ℚ
  taker : ℚ
deriving DecidableEq, Repr

/-- The result record of one tick: the success record, or the error record
built by the `except` handler (simulation_engine.py, lines 195-200). -/
inductive TickOutput
  | success (out : SuccessOutput)
  | error (msg : String)
deriving DecidableEq, Repr

/-- The `try` body of `SimulationEngine.process_tick` (simulation_engine.py,
lines 65-189): update the book, extract features, run the four models in
order, and assemble the output.  The book update is the only failable
step; the four model calls are total on these typed inputs. -/
def SimulationEngine.process_tick_body (pexp psqrt : ℚ → ℚ) (params : SimParams)
    (order_book : OrderBookG) (tick : TickG) : Except String SuccessOutput := do
  let g ← order_book.update tick
  let exchange := params.exchange.getD "OKX"
  let order_type := params.orderType.getD "market"
  let quantity_usd := params.quantityUSD.getD 100
  let volatility := params.volatility.getD (1 / 50)
  let fee_tier := params.feeTier.getD "Tier 1"
  let order_book_features := g.get_order_book_features
  let maker_taker_result :=
    MakerTakerModel.predict_proportion pexp order_book_features quantity_usd order_type volatility
  let fee_result :=
    FeeModel.calculate_fees exchange fee_tier order_type quantity_usd
      (some { maker := maker_taker_result.maker, taker := maker_taker_result.taker })
  let slippage_result :=
    SlippageModel.predict_slippage order_book_features quantity_usd true volatility
  let market_impact_result :=
    AlmgrenChrissModel.calculate_market_impact psqrt quantity_usd volatility
      (order_book_features.lookup "mid_price") none
  let net_cost_usd := slippage_result.slippage_usd + fee_result.total_fee_usd
    + market_impact_result.total_impact_usd
  .ok { expectedSlippageUSD := slippage_result.slippage_usd
        expectedFeesUSD := fee_result.total_fee_usd
        expectedMarketImpactUSD := market_impact_result.total_impact_usd
        netCostUSD := net_cost_usd
        maker := maker_taker_result.maker
        taker := maker_taker_result.taker }

/-- `SimulationEngine.process_tick` (simulation_engine.py, lines 55-206):
the whole body sits in a `try`; the `except` handler builds an error record
(for a dictionary tick its own `tick_data.get` cannot raise), so the call
always returns a record. -/
def SimulationEngine.process_tick (pexp psqrt : ℚ → ℚ) (params : SimParams)
    (order_book : OrderBookG) (tick : TickG) : Except String TickOutput :=
  match SimulationEngine.process_tick_body pexp psqrt params order_book tick with
  | .ok out => .ok (.success out)
  | .error e => .ok (.error e)

/-! ## `src/websocket/connector.py` — retry logic of
`WebSocketConnector._maintain_connection` (lines 211-296), embedded as a
step function on the connector state.  One `connStep` is one iteration of
the `while self.should_run` loop, classified by whether the connection
attempt succeeded or failed; the emitted value is the back-off wait passed
to `asyncio.sleep` before the next attempt, `none` when no wait is
scheduled. -/

/-- `self.max_reconnect_attempts = 5` (connector.py, line 49). -/
def max_reconnect_attempts : ℕ := 5

/-- `self.reconnect_interval = 5` seconds (connector.py, line 48). -/
def reconnect_interval : ℚ := 5

/-- `wait_time = self.reconnect_interval * min(self.reconnect_attempts, 5)`
(connector.py, lines 273 and 290): back-off growing with the attempt count,
capped at a 5x multiplier. -/
def waitTime (reconnect_attempts : ℕ) : ℚ :=
  reconnect_interval * min (reconnect_attempts : ℚ) 5

/-- Whether the `_maintain_connection` loop is still running or has exited
(`break` or the `while` condition turning false): the exited loop is the
`Closed` state of the connection. -/
inductive ConnPhase
  | looping
  | closed
deriving DecidableEq, Repr

/-- The connector state relevant to reconnection. -/
structure ConnectorState where
  should_run : Bool
  reconnect_attempts : ℕ
  phase : ConnPhase
deriving DecidableEq, Repr

/-- Outcome of one connection attempt inside the loop. -/
inductive ConnEvent
  | connectSuccess
  | connectFailure
deriving DecidableEq, Repr

/-- One iteration of the `while self.should_run` loop of
`_maintain_connection` (connector.py, lines 215-296): a successful
connection resets the attempt counter (line 227); a failure increments it
(lines 268, 285), breaks to `closed` once it exceeds the maximum
(lines 269-271, 286-288), and otherwise sleeps for the capped back-off and
retries (lines 273-275, 290-292).  An exited loop takes no step. -/
def connStep (s : ConnectorState) (e : ConnEvent) : ConnectorState × Option ℚ :=
  if s.phase = ConnPhase.closed then (s, none)
  else if ¬ s.should_run then ({ s with phase := ConnPhase.closed }, none)
  else
    match e with
    | .connectSuccess => ({ s with reconnect_attempts := 0 }, none)
    | .connectFailure =>
      let attempts := s.reconnect_attempts + 1
      if max_reconnect_attempts < attempts then
        ({ s with reconnect_attempts := attempts, phase := ConnPhase.closed }, none)
      else
        ({ s with reconnect_attempts := attempts }, some (waitTime attempts))

/-- Iterated `connStep`, collecting the scheduled waits. -/
def connRun (s : ConnectorState) : List ConnEvent → ConnectorState × List (Option ℚ)
  | [] => (s, [])
  | e :: es =>
    let sw := connStep s e
    let rec2 := connRun sw.1 es
    (rec2.1, sw.2 :: rec2.2)

/-! ## Auxiliary definitions used by the statements -/

/-- Decides whether `_update_side` stores a level: at least two entries,
both tokens parse, and the parsed quantity is positive. -/
def goodLevel (level : List Tok) : Bool :=
  match level with
  | price_tok :: qty_tok :: _ =>
    match parseFloat price_tok, parseFloat qty_tok with
    | some _, some qty => decide (0 < qty)
    | _, _ => false
  | _ => false

/-- A sequence of snapshot updates applied to a fresh order_book.py book. -/
def applyTicksG (symbol : String) (max_depth : ℕ) (ts : List TickG) :
    Except String OrderBookG :=
  ts.foldlM OrderBookG.update (OrderBookG.init symbol max_depth)

/-- A sequence of snapshot updates applied to a fresh orderbook.py book. -/
def applyTicksQ (ts : List TickQ) : Except String OrderBookQ :=
  ts.foldlM OrderBookQ.update OrderBookQ.empty

/-- Total USD notional of a list of `(price, qty)` levels. -/
def levelsNotional (l : List (ℚ × ℚ)) : ℚ := (l.map (fun x => x.1 * x.2)).sum

/-- All levels have positive price and positive quantity. -/
def PosLevels (l : List (ℚ × ℚ)) : Prop := ∀ x ∈ l, 0 < x.1 ∧ 0 < x.2

/-! ## Theorems for the claims -/

/-- C6: for every feature map, order size and volatility, when the order
type is a market order, the maker/taker model's returned taker proportion is
at least 0.9 (the `max` floor of maker_taker_model.py line 130), whatever
`np.exp` computes and hence whatever the underlying regression would
predict; the internal error-fallback record for market orders has taker
proportion 1, which also satisfies the floor. -/
theorem makerTaker_market_taker_floor (pexp : ℚ → ℚ)
    (order_book_features : List (String × ℚ)) (quantity_usd volatility : ℚ)
    (order_type : String) (h : strLower order_type = "market") :
    (9 : ℚ) / 10 ≤ (MakerTakerModel.predict_proportion pexp order_book_features
      quantity_usd order_type volatility).taker
    ∧ (9 : ℚ) / 10 ≤ (makerTakerErrorFallback order_type).taker := by
  constructor
  · simp only [MakerTakerModel.predict_proportion, h, if_pos]
    exact le_max_right _ _
  · simp only [makerTakerErrorFallback, h, if_pos]
    norm_num

/-- Witness for C6 at a concrete market order. -/
theorem makerTaker_market_taker_floor_witness :
    (9 : ℚ) / 10 ≤ (MakerTakerModel.predict_proportion (fun _ => 1) [] 100 "market"
      (1 / 50)).taker
    ∧ (9 : ℚ) / 10 ≤ (makerTakerErrorFallback "market").taker :=
  makerTaker_market_taker_floor (fun _ => 1) [] 100 (1 / 50) "market" (by decide)

/-- C10: for every feature map, volatility and non-negative order size, the
slippage percentage is clamped at 0 (slippage_model.py line 144), the USD
slippage equals `quantity_usd * slippage_percentage / 100` (line 148), and
so the USD slippage is non-negative as well. -/
theorem slippage_clamped_nonneg (order_book_features : List (String × ℚ))
    (quantity_usd : ℚ) (is_buy : Bool) (volatility : ℚ) (h : 0 ≤ quantity_usd) :
    0 ≤ (SlippageModel.predict_slippage order_book_features quantity_usd is_buy
      volatility).slippage_percentage
    ∧ (SlippageModel.predict_slippage order_book_features quantity_usd is_buy
        volatility).slippage_usd
      = quantity_usd * (SlippageModel.predict_slippage order_book_features quantity_usd
        is_buy volatility).slippage_percentage / 100
    ∧ 0 ≤ (SlippageModel.predict_slippage order_book_features quantity_usd is_buy
        volatility).slippage_usd := by
  refine ⟨le_max_left _ _, rfl, ?_⟩
  have hp : 0 ≤ (SlippageModel.predict_slippage order_book_features quantity_usd is_buy
      volatility).slippage_percentage := le_max_left _ _
  simp only [SlippageModel.predict_slippage] at hp ⊢
  positivity

/-- Witness for C10 at a concrete order. -/
theorem slippage_clamped_nonneg_witness :
    0 ≤ (SlippageModel.predict_slippage [] 100 true (1 / 50)).slippage_percentage
    ∧ (SlippageModel.predict_slippage [] 100 true (1 / 50)).slippage_usd
      = 100 * (SlippageModel.predict_slippage [] 100 true (1 / 50)).slippage_percentage / 100
    ∧ 0 ≤ (SlippageModel.predict_slippage [] 100 true (1 / 50)).slippage_usd :=
  slippage_clamped_nonneg [] 100 true (1 / 50) (by norm_num)

/-- C9: the fee model renormalizes a positive-sum maker/taker proportion to
sum to exactly 1 (fee_model.py lines 89-93); the returned total fee is the
sum of the maker and taker fees and equals
`quantity_usd * (maker_proportion * maker_rate + taker_proportion * taker_rate)`
(lines 95-98); an unrecognized exchange is silently replaced by OKX
(lines 60-62) and an unrecognized fee tier by `Tier 1` (lines 66-68). -/
theorem fee_model_normalization (exchange fee_tier order_type : String)
    (quantity_usd : ℚ) (mt : MakerTakerProportion) :
    (0 < mt.maker + mt.taker →
      (FeeModel.calculate_fees exchange fee_tier order_type quantity_usd
        (some mt)).maker_proportion
      + (FeeModel.calculate_fees exchange fee_tier order_type quantity_usd
        (some mt)).taker_proportion = 1)
    ∧ (FeeModel.calculate_fees exchange fee_tier order_type quantity_usd
        (some mt)).total_fee_usd
      = (FeeModel.calculate_fees exchange fee_tier order_type quantity_usd
          (some mt)).maker_fee_usd
        + (FeeModel.calculate_fees exchange fee_tier order_type quantity_usd
          (some mt)).taker_fee_usd
    ∧ (FeeModel.calculate_fees exchange fee_tier order_type quantity_usd
        (some mt)).total_fee_usd
      = quantity_usd
        * ((FeeModel.calculate_fees exchange fee_tier order_type quantity_usd
            (some mt)).maker_proportion
          * (FeeModel.calculate_fees exchange fee_tier order_type quantity_usd
            (some mt)).maker_fee_rate
          + (FeeModel.calculate_fees exchange fee_tier order_type quantity_usd
            (some mt)).taker_proportion
          * (FeeModel.calculate_fees exchange fee_tier order_type quantity_usd
            (some mt)).taker_fee_rate)
    ∧ (exchange_fee_tiers.lookup exchange = none →
        FeeModel.calculate_fees exchange fee_tier order_type quantity_usd (some mt)
          = FeeModel.calculate_fees "OKX" fee_tier order_type quantity_usd (some mt))
    ∧ (OKX_FEE_TIERS.lookup fee_tier = none →
        (FeeModel.calculate_fees exchange fee_tier order_type quantity_usd
          (some mt)).maker_fee_rate = 8 / 10000
        ∧ (FeeModel.calculate_fees exchange fee_tier order_type quantity_usd
          (some mt)).taker_fee_rate = 10 / 10000) := by
  refine ⟨?_, ?_, ?_, ?_, ?_⟩
  · intro hpos
    simp only [FeeModel.calculate_fees]
    rw [if_pos hpos]
    field_simp
  · rfl
  · simp only [FeeModel.calculate_fees]
    ring
  · intro hex
    simp only [FeeModel.calculate_fees, hex, Option.isSome_none, Bool.false_eq_true,
      if_false]
    have : exchange_fee_tiers.lookup "OKX" = some OKX_FEE_TIERS := rfl
    simp [this]
  · intro htier
    have hex : ∀ e1 : String,
        (exchange_fee_tiers.lookup e1).getD OKX_FEE_TIERS = OKX_FEE_TIERS := by
      intro e1
      simp only [exchange_fee_tiers]
      by_cases h : e1 = "OKX"
      · simp [h]
      · simp [List.lookup, h]
        split <;> simp_all
    constructor
    · simp only [FeeModel.calculate_fees, hex, htier, Option.isSome_none,
        Bool.false_eq_true, if_false]
      rfl
    · simp only [FeeModel.calculate_fees, hex, htier, Option.isSome_none,
        Bool.false_eq_true, if_false]
      rfl

/-- Witness for C9 at a concrete unknown exchange, unknown tier and
positive-sum proportion. -/
theorem fee_model_normalization_witness :
    ((FeeModel.calculate_fees "Binance" "Tier 99" "market" 100
        (some { maker := 3, taker := 1 })).maker_proportion
      + (FeeModel.calculate_fees "Binance" "Tier 99" "market" 100
        (some { maker := 3, taker := 1 })).taker_proportion = 1)
    ∧ (FeeModel.calculate_fees "Binance" "Tier 99" "market" 100
        (some { maker := 3, taker := 1 })
      = FeeModel.calculate_fees "OKX" "Tier 99" "market" 100
        (some { maker := 3, taker := 1 }))
    ∧ ((FeeModel.calculate_fees "Binance" "Tier 99" "market" 100
        (some { maker := 3, taker := 1 })).maker_fee_rate = 8 / 10000
      ∧ (FeeModel.calculate_fees "Binance" "Tier 99" "market" 100
        (some { maker := 3, taker := 1 })).taker_fee_rate = 10 / 10000) := by
  have h := fee_model_normalization "Binance" "Tier 99" "market" 100
    { maker := 3, taker := 1 }
  exact ⟨h.1 (by norm_num), h.2.2.2.1 (by decide), h.2.2.2.2 (by decide)⟩

/-- C8: (i) the retry wait interval grows (weakly) with the attempt count;
(ii) it never exceeds the capped multiplier
`reconnect_interval * 5`; (iii) a connection failure once the attempt count
has reached the configured maximum moves the running state machine to
`closed`; (iv) from `closed` the machine never leaves `closed` and never
schedules another reconnect wait, whatever events follow. -/
theorem reconnect_backoff_terminal :
    (∀ a b : ℕ, a ≤ b → waitTime a ≤ waitTime b)
    ∧ (∀ a : ℕ, waitTime a ≤ reconnect_interval * 5)
    ∧ (∀ s : ConnectorState, s.phase = ConnPhase.looping → s.should_run = true →
        max_reconnect_attempts ≤ s.reconnect_attempts →
        (connStep s ConnEvent.connectFailure).1.phase = ConnPhase.closed
        ∧ (connStep s ConnEvent.connectFailure).2 = none)
    ∧ (∀ (es : List ConnEvent) (s : ConnectorState), s.phase = ConnPhase.closed →
        (connRun s es).1.phase = ConnPhase.closed
        ∧ ∀ w ∈ (connRun s es).2, w = none) := by
  refine ⟨?_, ?_, ?_, ?_⟩
  · intro a b hab
    have h5 : (0 : ℚ) ≤ reconnect_interval := by norm_num [reconnect_interval]
    refine mul_le_mul_of_nonneg_left ?_ h5
    exact min_le_min (by exact_mod_cast hab) le_rfl
  · intro a
    have h5 : (0 : ℚ) ≤ reconnect_interval := by norm_num [reconnect_interval]
    exact mul_le_mul_of_nonneg_left (min_le_right _ _) h5
  · intro s hphase hrun hmax
    have hne : ¬ s.phase = ConnPhase.closed := by simp [hphase]
    have hlt : max_reconnect_attempts < s.reconnect_attempts + 1 :=
      Nat.lt_succ_of_le hmax
    constructor
    · simp [connStep, hne, hrun, hlt]
    · simp [connStep, hne, hrun, hlt]
  · intro es
    induction es with
    | nil => intro s hs; exact ⟨hs, by simp [connRun]⟩
    | cons e es ih =>
      intro s hs
      have hstep : connStep s e = (s, none) := by
        simp [connStep, hs]
      constructor
      · simp only [connRun, hstep]
        exact (ih s hs).1
      · intro w hw
        simp only [connRun, hstep] at hw
        rcases List.mem_cons.mp hw with h | h
        · exact h
        · exact (ih s hs).2 w h

/-- Witness for C8 at a concrete state and event sequence. -/
theorem reconnect_backoff_terminal_witness :
    waitTime 2 ≤ waitTime 7
    ∧ waitTime 9 ≤ reconnect_interval * 5
    ∧ ((connStep { should_run := true, reconnect_attempts := 5, phase := ConnPhase.looping } ConnEvent.connectFailure).1.phase = ConnPhase.closed
        ∧ (connStep { should_run := true, reconnect_attempts := 5, phase := ConnPhase.looping } ConnEvent.connectFailure).2 = none)
    ∧ ((connRun { should_run := true, reconnect_attempts := 6, phase := ConnPhase.closed } [ConnEvent.connectFailure, ConnEvent.connectSuccess]).1.phase = ConnPhase.closed
        ∧ ∀ w ∈ (connRun { should_run := true, reconnect_attempts := 6, phase := ConnPhase.closed } [ConnEvent.connectFailure, ConnEvent.connectSuccess]).2, w = none) := by
  have h := reconnect_backoff_terminal
  exact ⟨h.1 2 7 (by norm_num), h.2.1 9,
    h.2.2.1 _ rfl rfl (by norm_num [max_reconnect_attempts]),
    h.2.2.2 _ _ rfl⟩

/-- Any book produced by `OrderBookG.update` is initialized and caches the
mid price recomputed from its own sides. -/
theorem updateG_mid_consistent (g : OrderBookG) (t : TickG) (g' : OrderBookG)
    (h : g.update t = Except.ok g') :
    g'.is_initialized = true ∧ g'.mid_price = calcMid g'.bids g'.asks := by
  cases h1 : updSideE t.asks g.asks g.max_depth false with
  | error e => simp [OrderBookG.update, h1, Bind.bind, Except.bind] at h
  | ok asks' =>
    cases h2 : updSideE t.bids g.bids g.max_depth true with
    | error e => simp [OrderBookG.update, h1, h2, Bind.bind, Except.bind] at h
    | ok bids' =>
      simp only [OrderBookG.update, h1, h2, Bind.bind, Except.bind,
        Except.ok.injEq] at h
      subst h
      exact ⟨rfl, rfl⟩

/-- C7 counterexample: on the empty (never-updated) order_book.py book,
`get_mid_price` returns the NUMBER 0 — not an absent/none value as the
claim states for every book with an empty side.  (The duplicate
orderbook.py book does return `None` on its empty book.) -/
theorem mid_price_empty_counterexample :
    (OrderBookG.init "BTC-USDT" 100).get_mid_price = 0
    ∧ OrderBookQ.empty.get_mid_price = none := ⟨rfl, rfl⟩

/-- C7 amended: in orderbook.py, `get_mid_price` returns none when either
side is empty and `(best_bid + best_ask) / 2` when both sides are
non-empty; in order_book.py, `get_mid_price` returns the sentinel NUMBER 0
when the book is uninitialized or either side is empty, and returns
`(best_bid + best_ask) / 2` on any updated book whose sides are non-empty
with non-zero best prices. -/
theorem mid_price_amended :
    (∀ b : OrderBookQ, b.bids = [] ∨ b.asks = [] → b.get_mid_price = none)
    ∧ (∀ (b : OrderBookQ) (bb ba : ℚ), b.get_best_bid = some bb →
        b.get_best_ask = some ba → b.get_mid_price = some ((bb + ba) / 2))
    ∧ (∀ g : OrderBookG, g.is_initialized = false ∨ g.bids = [] ∨ g.asks = [] →
        g.get_mid_price = 0)
    ∧ (∀ (g : OrderBookG) (t : TickG) (g' : OrderBookG), g.update t = Except.ok g' →
        ∀ bb ba : ℚ, g'.best_bid = some bb → g'.best_ask = some ba →
        bb ≠ 0 → ba ≠ 0 → g'.get_mid_price = (bb + ba) / 2) := by
  refine ⟨?_, ?_, ?_, ?_⟩
  · intro b hb
    rcases hb with hb | hb <;>
      simp [OrderBookQ.get_mid_price, OrderBookQ.get_best_bid, OrderBookQ.get_best_ask, hb]
  · intro b bb ba hbb hba
    simp [OrderBookQ.get_mid_price, hbb, hba]
  · intro g hg
    rcases hg with hg | hg | hg <;> simp [OrderBookG.get_mid_price, hg]
  · intro g t g' hupd bb ba hbb hba hbb0 hba0
    obtain ⟨hinit, hmid⟩ := updateG_mid_consistent g t g' hupd
    have hbids : g'.bids.getLast?.isSome := by
      simp only [OrderBookG.best_bid] at hbb
      cases h : g'.bids.getLast? with
      | none => rw [h] at hbb; simp at hbb
      | some e => simp [h]
    have hasks : g'.asks.head?.isSome := by
      simp only [OrderBookG.best_ask] at hba
      cases h : g'.asks.head? with
      | none => rw [h] at hba; simp at hba
      | some e => simp [h]
    obtain ⟨eb, heb⟩ := Option.isSome_iff_exists.mp hbids
    obtain ⟨ea, hea⟩ := Option.isSome_iff_exists.mp hasks
    have hbne : ¬ g'.bids.isEmpty := by
      cases hb : g'.bids with
      | nil => rw [hb] at heb; simp at heb
      | cons x xs => simp [hb]
    have hane : ¬ g'.asks.isEmpty := by
      cases ha : g'.asks with
      | nil => rw [ha] at hea; simp at hea
      | cons x xs => simp [ha]
    have hebb : eb.1 = bb := by
      simp only [OrderBookG.best_bid, heb] at hbb
      exact Option.some.inj hbb
    have heba : ea.1 = ba := by
      simp only [OrderBookG.best_ask, hea] at hba
      exact Option.some.inj hba
    have hmid' : g'.mid_price = some ((bb + ba) / 2) := by
      rw [hmid]
      simp only [calcMid, heb, hea, hebb, heba]
      rw [if_neg (by simp [hbne, hane])]
      rw [if_pos ⟨hbb0, hba0⟩]
    simp only [OrderBookG.get_mid_price, hinit, hmid']
    rw [if_neg (by simp [hbne, hane])]
    by_cases hz : (bb + ba) / 2 = 0
    · simp [hz]
    · simp [hz]

/-- Witness for the amended C7 at concrete books. -/
theorem mid_price_amended_witness :
    OrderBookQ.empty.get_mid_price = none
    ∧ ({ bids := [(-100, (100, 2))], asks := [(101, (101, 3))] } : OrderBookQ).get_mid_price = some ((100 + 101) / 2)
    ∧ (OrderBookG.init "X" 20).get_mid_price = 0
    ∧ ({ symbol := "X", max_depth := 20, asks := [(101, 3)], bids := [(100, 2)], last_update_time := 1, is_initialized := true, mid_price := some ((100 + 101) / 2) } : OrderBookG).get_mid_price = (100 + 101) / 2 := by
  have h := mid_price_amended
  refine ⟨h.1 OrderBookQ.empty (Or.inl rfl), h.2.1 _ 100 101 rfl rfl,
    h.2.2.1 _ (Or.inl rfl), ?_⟩
  refine h.2.2.2 (OrderBookG.init "X" 20)
    { timestamp := 1, asks := PyList.list [[Tok.num 101, Tok.num 3]], bids := PyList.list [[Tok.num 100, Tok.num 2]] }
    _ (by rfl) 100 101 rfl rfl (by norm_num) (by norm_num)

/-- A level that `_update_side` does not store leaves the side unchanged. -/
theorem updateSideStep_skip (side : List (ℚ × ℚ)) (level : List Tok)
    (h : goodLevel level = false) : updateSideStep side level = side := by
  match level with
  | [] => rfl
  | [_] => rfl
  | p :: q :: rest =>
    cases hp : parseFloat p with
    | none => simp [updateSideStep, hp]
    | some price =>
      cases hq : parseFloat q with
      | none => simp [updateSideStep, hp, hq]
      | some qty =>
        simp only [goodLevel, hp, hq, decide_eq_false_iff_not, not_lt] at h
        simp [updateSideStep, hp, hq, h]

/-- The level fold of `_update_side` only sees the stored (good) levels. -/
theorem foldl_updateSideStep_filter (levels : List (List Tok)) :
    ∀ side, levels.foldl updateSideStep side
      = (levels.filter goodLevel).foldl updateSideStep side := by
  induction levels with
  | nil => intro side; rfl
  | cons l ls ih =>
    intro side
    by_cases hg : goodLevel l
    · simp only [List.filter_cons, hg, if_pos, List.foldl_cons]
      exact ih _
    · have hskip := updateSideStep_skip side l (by simpa using hg)
      simp only [List.filter_cons, hg, Bool.false_eq_true, if_false, List.foldl_cons, hskip]
      exact ih _

/-- The level fold of `_update_side` stores only positive quantities. -/
theorem foldl_updateSideStep_pos (levels : List (List Tok)) :
    ∀ side, (∀ x ∈ side, 0 < x.2) →
      ∀ x ∈ levels.foldl updateSideStep side, 0 < x.2 := by
  induction levels with
  | nil => intro side h; simpa using h
  | cons l ls ih =>
    intro side h
    refine ih _ ?_
    intro x hx
    match l with
    | [] => exact h x hx
    | [_] => exact h x hx
    | p :: q :: rest =>
      cases hp : parseFloat p with
      | none => simp only [updateSideStep, hp] at hx; exact h x hx
      | some price =>
        cases hq : parseFloat q with
        | none => simp only [updateSideStep, hp, hq] at hx; exact h x hx
        | some qty =>
          simp only [updateSideStep, hp, hq] at hx
          by_cases hle : qty ≤ 0
          · rw [if_pos hle] at hx; exact h x hx
          · rw [if_neg hle] at hx
            exact insertKey_val (fun v => 0 < v) side price qty h (lt_of_not_le hle) x hx

/-- The level fold of `_update_side` keeps the side strictly sorted. -/
theorem foldl_updateSideStep_asc (levels : List (List Tok)) :
    ∀ side, KeysAsc side → KeysAsc (levels.foldl updateSideStep side) := by
  induction levels with
  | nil => intro side h; simpa using h
  | cons l ls ih =>
    intro side h
    refine ih _ ?_
    match l with
    | [] => exact h
    | [_] => exact h
    | p :: q :: rest =>
      cases hp : parseFloat p with
      | none => simpa [updateSideStep, hp] using h
      | some price =>
        cases hq : parseFloat q with
        | none => simpa [updateSideStep, hp, hq] using h
        | some qty =>
          simp only [updateSideStep, hp, hq]
          by_cases hle : qty ≤ 0
          · rw [if_pos hle]; exact h
          · rw [if_neg hle]; exact insertKey_keysAsc side price qty h

/-- Depth trimming keeps a sublist of the side. -/
theorem trimSide_sublist (side : List (ℚ × ℚ)) (max_depth : ℕ) (is_bid : Bool) :
    (trimSide side max_depth is_bid).Sublist side := by
  unfold trimSide
  by_cases h : is_bid
  · simp only [h, if_pos]; exact List.drop_sublist _ _
  · simp only [h, Bool.false_eq_true, if_false]; exact List.take_sublist _ _

/-- C1 counterexample: in the duplicate orderbook.py, an update whose first
bid pair has a non-numeric price raises the `float` conversion error out of
`update` (the `except` handler re-raises), so the update is aborted and the
well-formed pair `["100","2"]` in the same update is not applied — no
side-update that skips and continues takes place there. -/
theorem obUpdate_raises_counterexample :
    OrderBookQ.empty.update
        { bids := [[Tok.nonNum "abc", Tok.num 1], [Tok.num 100, Tok.num 2]], asks := [] }
      = Except.error "could not convert string to float: abc" := rfl

/-- C1 amended: in order_book.py's `_update_side` (the side-update used by
the simulation engine) the claim holds: the rebuilt side equals the rebuild
from only the well-formed pairs (so a pair that fails numeric parsing is
skipped while the other well-formed pairs in the same update are applied;
the operation is total, never raising on a bad token), and a pair whose
parsed quantity is ≤ 0 is dropped — every stored quantity is positive.  In
the duplicate orderbook.py, however, `update` raises (returns an error)
whenever any pair of the update fails parsing. -/
theorem update_side_skips_amended :
    (∀ (levels : List (List Tok)) (max_depth : ℕ) (is_bid : Bool),
      updateSideG levels max_depth is_bid
        = updateSideG (levels.filter goodLevel) max_depth is_bid)
    ∧ (∀ (levels : List (List Tok)) (max_depth : ℕ) (is_bid : Bool),
      ∀ x ∈ updateSideG levels max_depth is_bid, 0 < x.2)
    ∧ (∀ (b : OrderBookQ) (t : TickQ),
      (∃ lvl ∈ t.bids ++ t.asks, (obParsePair lvl).isOk = false) →
      (b.update t).isOk = false) := by
  refine ⟨?_, ?_, ?_⟩
  · intro levels max_depth is_bid
    unfold updateSideG
    rw [foldl_updateSideStep_filter]
  · intro levels max_depth is_bid x hx
    have hsub := trimSide_sublist (levels.foldl updateSideStep []) max_depth is_bid
    have hx' : x ∈ levels.foldl updateSideStep [] :=
      hsub.subset (by simpa [updateSideG] using hx)
    exact foldl_updateSideStep_pos levels [] (by simp) x hx'
  · intro b t ht
    have herr : ∀ (pairs : List (List Tok)) (is_bid : Bool)
        (side : List (ℚ × (ℚ × ℚ))),
        (∃ lvl ∈ pairs, (obParsePair lvl).isOk = false) →
        (pairs.foldlM (buildStepQ is_bid) side).isOk = false := by
      intro pairs is_bid
      induction pairs with
      | nil => intro side h; simp at h
      | cons l ls ih =>
        intro side h
        cases hl : obParsePair l with
        | error e =>
          simp [List.foldlM, buildStepQ, hl, Bind.bind, Except.bind, Except.isOk,
            Except.toBool]
        | ok pq =>
          rcases h with ⟨lvl, hmem, hbad⟩
          rcases List.mem_cons.mp hmem with rfl | hmem'
          · rw [hl] at hbad; simp [Except.isOk, Except.toBool] at hbad
          · simp only [List.foldlM, buildStepQ, hl, Bind.bind, Except.bind]
            exact ih _ ⟨lvl, hmem', hbad⟩
    rcases ht with ⟨lvl, hmem, hbad⟩
    rcases List.mem_append.mp hmem with hb | ha
    · have h1 : (buildSideQ t.bids true).isOk = false :=
        herr t.bids true [] ⟨lvl, hb, hbad⟩
      cases h1' : buildSideQ t.bids true with
      | error e => simp [OrderBookQ.update, h1', Bind.bind, Except.bind, Except.isOk, Except.toBool]
      | ok s => rw [h1'] at h1; simp [Except.isOk, Except.toBool] at h1
    · cases h1' : buildSideQ t.bids true with
      | error e => simp [OrderBookQ.update, h1', Bind.bind, Except.bind, Except.isOk, Except.toBool]
      | ok s =>
        have h2 : (buildSideQ t.asks false).isOk = false :=
          herr t.asks false [] ⟨lvl, ha, hbad⟩
        cases h2' : buildSideQ t.asks false with
        | error e =>
          simp [OrderBookQ.update, h1', h2', Bind.bind, Except.bind, Except.isOk, Except.toBool]
        | ok s2 => rw [h2'] at h2; simp [Except.isOk, Except.toBool] at h2

/-- Witness for the amended C1 at a concrete update mixing a good pair, a
non-parsing pair and a zero-quantity pair. -/
theorem update_side_skips_amended_witness :
    updateSideG [[Tok.num 100, Tok.num 2], [Tok.nonNum "x", Tok.num 1], [Tok.num 99, Tok.num 0]] 20 true
      = updateSideG ([[Tok.num 100, Tok.num 2], [Tok.nonNum "x", Tok.num 1], [Tok.num 99, Tok.num 0]].filter goodLevel) 20 true
    ∧ (0 : ℚ) < ((100 : ℚ), (2 : ℚ)).2
    ∧ (OrderBookQ.empty.update
        { bids := [[Tok.nonNum "abc", Tok.num 1], [Tok.num 100, Tok.num 2]], asks := [] }).isOk
      = false := by
  refine ⟨update_side_skips_amended.1 _ 20 true, ?_, ?_⟩
  · exact update_side_skips_amended.2.1
      [[Tok.num 100, Tok.num 2], [Tok.nonNum "x", Tok.num 1], [Tok.num 99, Tok.num 0]] 20 true
      ((100 : ℚ), (2 : ℚ)) (by decide)
  · exact update_side_skips_amended.2.2 OrderBookQ.empty
      { bids := [[Tok.nonNum "abc", Tok.num 1], [Tok.num 100, Tok.num 2]], asks := [] }
      ⟨[Tok.nonNum "abc", Tok.num 1], by decide, by decide⟩

/-- A rebuilt side of order_book.py is strictly sorted with positive
quantities. -/
theorem updateSideG_asc_pos (levels : List (List Tok)) (max_depth : ℕ) (is_bid : Bool) :
    KeysAsc (updateSideG levels max_depth is_bid)
    ∧ ∀ x ∈ updateSideG levels max_depth is_bid, 0 < x.2 := by
  constructor
  · have h := foldl_updateSideStep_asc levels [] (by simp [KeysAsc])
    exact List.Pairwise.sublist (trimSide_sublist _ max_depth is_bid) h
  · intro x hx
    refine foldl_updateSideStep_pos levels [] (by simp) x ?_
    exact (trimSide_sublist _ max_depth is_bid).subset (by simpa [updateSideG] using hx)

/-- A side produced by `updSideE` is either the old side or a rebuilt one. -/
theorem updSideE_cases (payload : PyList) (old : List (ℚ × ℚ)) (max_depth : ℕ)
    (is_bid : Bool) (s : List (ℚ × ℚ))
    (h : updSideE payload old max_depth is_bid = Except.ok s) :
    s = old ∨ ∃ levels, s = updateSideG levels max_depth is_bid := by
  unfold updSideE at h
  by_cases ht : payload.truthy
  · rw [if_pos ht] at h
    cases payload with
    | list levels =>
      right
      exact ⟨levels, (Except.ok.inj h).symm⟩
    | notIter t => simp at h
  · rw [if_neg ht] at h
    left
    exact (Except.ok.inj h).symm

/-- `OrderBookG.update` preserves the side invariants. -/
theorem updateG_inv (g : OrderBookG) (t : TickG) (g' : OrderBookG)
    (h : g.update t = Except.ok g')
    (hb : KeysAsc g.bids) (ha : KeysAsc g.asks)
    (hbp : ∀ x ∈ g.bids, 0 < x.2) (hap : ∀ x ∈ g.asks, 0 < x.2) :
    KeysAsc g'.bids ∧ KeysAsc g'.asks
    ∧ (∀ x ∈ g'.bids, 0 < x.2) ∧ (∀ x ∈ g'.asks, 0 < x.2) := by
  cases h1 : updSideE t.asks g.asks g.max_depth false with
  | error e => simp [OrderBookG.update, h1, Bind.bind, Except.bind] at h
  | ok asks' =>
    cases h2 : updSideE t.bids g.bids g.max_depth true with
    | error e => simp [OrderBookG.update, h1, h2, Bind.bind, Except.bind] at h
    | ok bids' =>
      simp only [OrderBookG.update, h1, h2, Bind.bind, Except.bind,
        Except.ok.injEq] at h
      subst h
      have hAsk : KeysAsc asks' ∧ ∀ x ∈ asks', 0 < x.2 := by
        rcases updSideE_cases t.asks g.asks g.max_depth false asks' h1 with rfl | ⟨levels, rfl⟩
        · exact ⟨ha, hap⟩
        · exact updateSideG_asc_pos levels g.max_depth false
      have hBid : KeysAsc bids' ∧ ∀ x ∈ bids', 0 < x.2 := by
        rcases updSideE_cases t.bids g.bids g.max_depth true bids' h2 with rfl | ⟨levels, rfl⟩
        · exact ⟨hb, hbp⟩
        · exact updateSideG_asc_pos levels g.max_depth true
      exact ⟨hBid.1, hAsk.1, hBid.2, hAsk.2⟩

/-- A side built by `buildSideQ` (orderbook.py) is strictly sorted by key;
every stored value pairs a positive quantity with a price equal to the key
(negated for bids). -/
theorem buildFoldQ_inv (is_bid : Bool) (pairs : List (List Tok)) :
    ∀ side res, List.foldlM (buildStepQ is_bid) side pairs = Except.ok res →
      KeysAsc side →
      (∀ x ∈ side, 0 < x.2.2 ∧ x.2.1 = (if is_bid then -x.1 else x.1)) →
      KeysAsc res ∧ ∀ x ∈ res, 0 < x.2.2 ∧ x.2.1 = (if is_bid then -x.1 else x.1) := by
  induction pairs with
  | nil =>
    intro side res h hasc hval
    simp only [List.foldlM, pure, Except.pure, Except.ok.injEq] at h
    subst h
    exact ⟨hasc, hval⟩
  | cons l ls ih =>
    intro side res h hasc hval
    cases hl : obParsePair l with
    | error e => simp [List.foldlM, buildStepQ, hl, Bind.bind, Except.bind] at h
    | ok pq =>
      simp only [List.foldlM, buildStepQ, hl, Bind.bind, Except.bind] at h
      by_cases hq : 0 < pq.2
      · rw [if_pos hq] at h
        refine ih _ res h (insertKey_keysAsc _ _ _ hasc) ?_
        intro x hx
        rcases insertKey_mem _ _ _ x hx with hm | hm
        · exact hval x hm
        · rw [hm]
          refine ⟨hq, ?_⟩
          cases is_bid <;> simp
      · rw [if_neg hq] at h
        exact ih _ res h hasc hval

/-- `OrderBookQ.update` establishes the side invariants from scratch. -/
theorem updateQ_inv (b b' : OrderBookQ) (t : TickQ) (h : b.update t = Except.ok b') :
    (KeysAsc b'.bids ∧ ∀ x ∈ b'.bids, 0 < x.2.2 ∧ x.2.1 = -x.1)
    ∧ (KeysAsc b'.asks ∧ ∀ x ∈ b'.asks, 0 < x.2.2 ∧ x.2.1 = x.1) := by
  cases h1 : buildSideQ t.bids true with
  | error e => simp [OrderBookQ.update, h1, Bind.bind, Except.bind] at h
  | ok bids' =>
    cases h2 : buildSideQ t.asks false with
    | error e => simp [OrderBookQ.update, h1, h2, Bind.bind, Except.bind] at h
    | ok asks' =>
      simp only [OrderBookQ.update, h1, h2, Bind.bind, Except.bind,
        Except.ok.injEq] at h
      subst h
      have hB := buildFoldQ_inv true t.bids [] bids' h1 (by simp [KeysAsc]) (by simp)
      have hA := buildFoldQ_inv false t.asks [] asks' h2 (by simp [KeysAsc]) (by simp)
      refine ⟨⟨hB.1, ?_⟩, ⟨hA.1, ?_⟩⟩
      · intro x hx
        have := hB.2 x hx
        simpa using this
      · intro x hx
        have := hA.2 x hx
        simpa using this

/-- C2: after every sequence of snapshot updates on an initially empty book,
every stored level has positive quantity, each side is strictly ordered by
price so it holds at most one quantity per distinct price, and iteration is
ordered: in order_book.py both sides are stored in strictly ascending key
order (so the best-first bid iteration used by its accessors — the reverse —
is strictly descending); in orderbook.py the bid side iterates in strictly
descending price order and the ask side in strictly ascending price
order. -/
theorem book_side_ordering_invariants :
    (∀ (symbol : String) (max_depth : ℕ) (ts : List TickG) (g : OrderBookG),
      applyTicksG symbol max_depth ts = Except.ok g →
      KeysAsc g.bids ∧ KeysAsc g.asks
      ∧ (∀ x ∈ g.bids, 0 < x.2) ∧ (∀ x ∈ g.asks, 0 < x.2)
      ∧ List.Pairwise (fun a b => b.1 < a.1) g.bids.reverse)
    ∧ (∀ (ts : List TickQ) (bk : OrderBookQ),
      applyTicksQ ts = Except.ok bk →
      (∀ x ∈ bk.bids, 0 < x.2.2) ∧ (∀ x ∈ bk.asks, 0 < x.2.2)
      ∧ List.Pairwise (fun a b => b.2.1 < a.2.1) bk.bids
      ∧ List.Pairwise (fun a b => a.2.1 < b.2.1) bk.asks) := by
  constructor
  · have mainG : ∀ (ts : List TickG) (g0 : OrderBookG),
        KeysAsc g0.bids → KeysAsc g0.asks →
        (∀ x ∈ g0.bids, 0 < x.2) → (∀ x ∈ g0.asks, 0 < x.2) →
        ∀ g, List.foldlM OrderBookG.update g0 ts = Except.ok g →
        KeysAsc g.bids ∧ KeysAsc g.asks
        ∧ (∀ x ∈ g.bids, 0 < x.2) ∧ (∀ x ∈ g.asks, 0 < x.2) := by
      intro ts
      induction ts with
      | nil =>
        intro g0 h1 h2 h3 h4 g h
        simp only [List.foldlM, pure, Except.pure, Except.ok.injEq] at h
        subst h
        exact ⟨h1, h2, h3, h4⟩
      | cons t ts ih =>
        intro g0 h1 h2 h3 h4 g h
        cases hu : g0.update t with
        | error e => simp [List.foldlM, hu, Bind.bind, Except.bind] at h
        | ok g1 =>
          simp only [List.foldlM, hu, Bind.bind, Except.bind] at h
          obtain ⟨k1, k2, k3, k4⟩ := updateG_inv g0 t g1 hu h1 h2 h3 h4
          exact ih g1 k1 k2 k3 k4 g h
    intro symbol max_depth ts g happ
    obtain ⟨k1, k2, k3, k4⟩ := mainG ts (OrderBookG.init symbol max_depth)
      (by simp [OrderBookG.init, KeysAsc]) (by simp [OrderBookG.init, KeysAsc])
      (by simp [OrderBookG.init]) (by simp [OrderBookG.init]) g happ
    refine ⟨k1, k2, k3, k4, ?_⟩
    exact List.pairwise_reverse.mpr k1
  · have mainQ : ∀ (ts : List TickQ) (b0 : OrderBookQ),
        (KeysAsc b0.bids ∧ ∀ x ∈ b0.bids, 0 < x.2.2 ∧ x.2.1 = -x.1) →
        (KeysAsc b0.asks ∧ ∀ x ∈ b0.asks, 0 < x.2.2 ∧ x.2.1 = x.1) →
        ∀ bk, List.foldlM OrderBookQ.update b0 ts = Except.ok bk →
        (KeysAsc bk.bids ∧ ∀ x ∈ bk.bids, 0 < x.2.2 ∧ x.2.1 = -x.1)
        ∧ (KeysAsc bk.asks ∧ ∀ x ∈ bk.asks, 0 < x.2.2 ∧ x.2.1 = x.1) := by
      intro ts
      induction ts with
      | nil =>
        intro b0 h1 h2 bk h
        simp only [List.foldlM, pure, Except.pure, Except.ok.injEq] at h
        subst h
        exact ⟨h1, h2⟩
      | cons t ts ih =>
        intro b0 h1 h2 bk h
        cases hu : b0.update t with
        | error e => simp [List.foldlM, hu, Bind.bind, Except.bind] at h
        | ok b1 =>
          simp only [List.foldlM, hu, Bind.bind, Except.bind] at h
          obtain ⟨k1, k2⟩ := updateQ_inv b0 b1 t hu
          exact ih b1 k1 k2 bk h
    intro ts bk happ
    obtain ⟨⟨kb, vb⟩, ⟨ka, va⟩⟩ := mainQ ts OrderBookQ.empty
      (by simp [OrderBookQ.empty, KeysAsc]) (by simp [OrderBookQ.empty, KeysAsc]) bk happ
    refine ⟨fun x hx => (vb x hx).1, fun x hx => (va x hx).1, ?_, ?_⟩
    · refine List.Pairwise.imp_of_mem ?_ kb
      intro a b ha hb hab
      have hva := (vb a ha).2
      have hvb := (vb b hb).2
      rw [hva, hvb]
      exact neg_lt_neg hab
    · refine List.Pairwise.imp_of_mem ?_ ka
      intro a b ha hb hab
      have hva := (va a ha).2
      have hvb := (va b hb).2
      rw [hva, hvb]
      exact hab

/-- Witness for C2 at a concrete two-tick sequence. -/
theorem book_side_ordering_invariants_witness :
    (KeysAsc ({ symbol := "X", max_depth := 20, asks := [(101, 3)], bids := [(100, 2)], last_update_time := 1, is_initialized := true, mid_price := some ((100 + 101) / 2) } : OrderBookG).bids
      ∧ KeysAsc ({ symbol := "X", max_depth := 20, asks := [(101, 3)], bids := [(100, 2)], last_update_time := 1, is_initialized := true, mid_price := some ((100 + 101) / 2) } : OrderBookG).asks
      ∧ (∀ x ∈ ({ symbol := "X", max_depth := 20, asks := [(101, 3)], bids := [(100, 2)], last_update_time := 1, is_initialized := true, mid_price := some ((100 + 101) / 2) } : OrderBookG).bids, 0 < x.2)
      ∧ (∀ x ∈ ({ symbol := "X", max_depth := 20, asks := [(101, 3)], bids := [(100, 2)], last_update_time := 1, is_initialized := true, mid_price := some ((100 + 101) / 2) } : OrderBookG).asks, 0 < x.2)
      ∧ List.Pairwise (fun a b => b.1 < a.1) ({ symbol := "X", max_depth := 20, asks := [(101, 3)], bids := [(100, 2)], last_update_time := 1, is_initialized := true, mid_price := some ((100 + 101) / 2) } : OrderBookG).bids.reverse)
    ∧ ((∀ x ∈ ({ bids := [(-100, (100, 2)), (-99, (99, 5))], asks := [(101, (101, 3))] } : OrderBookQ).bids, 0 < x.2.2)
      ∧ (∀ x ∈ ({ bids := [(-100, (100, 2)), (-99, (99, 5))], asks := [(101, (101, 3))] } : OrderBookQ).asks, 0 < x.2.2)
      ∧ List.Pairwise (fun a b => b.2.1 < a.2.1) ({ bids := [(-100, (100, 2)), (-99, (99, 5))], asks := [(101, (101, 3))] } : OrderBookQ).bids
      ∧ List.Pairwise (fun a b => a.2.1 < b.2.1) ({ bids := [(-100, (100, 2)), (-99, (99, 5))], asks := [(101, (101, 3))] } : OrderBookQ).asks) := by
  constructor
  · exact book_side_ordering_invariants.1 "X" 20
      [{ timestamp := 1, asks := PyList.list [[Tok.num 101, Tok.num 3]], bids := PyList.list [[Tok.num 100, Tok.num 2]] }]
      _ (by rfl)
  · exact book_side_ordering_invariants.2
      [{ bids := [[Tok.num 55, Tok.num 1]], asks := [] },
       { bids := [[Tok.num 100, Tok.num 2], [Tok.num 99, Tok.num 5]], asks := [[Tok.num 101, Tok.num 3]] }]
      _ (by rfl)

/-- C3: `process_tick` always returns a result record: for every parameter
set, book state and (dictionary-shaped) tick — malformed side payloads
included — the call yields a record, the `except` handler turning any error
raised in the body into the error record; and a tick carrying empty depth
arrays processed before any snapshot has populated the book yields a
SUCCESS record whose numbers are exactly the four sub-models evaluated on
the empty feature map, i.e. on their documented default fallback feature
values, not an exception. -/
theorem process_tick_always_returns :
    (∀ (pexp psqrt : ℚ → ℚ) (params : SimParams) (g : OrderBookG) (t : TickG),
      ∃ out, SimulationEngine.process_tick pexp psqrt params g t = Except.ok out)
    ∧ (∀ (pexp psqrt : ℚ → ℚ) (params : SimParams) (symbol : String) (max_depth : ℕ)
        (t : TickG), t.asks = PyList.list [] → t.bids = PyList.list [] →
      SimulationEngine.process_tick pexp psqrt params (OrderBookG.init symbol max_depth) t
        = Except.ok (TickOutput.success
          { expectedSlippageUSD := (SlippageModel.predict_slippage []
              (params.quantityUSD.getD 100) true (params.volatility.getD (1 / 50))).slippage_usd
            expectedFeesUSD := (FeeModel.calculate_fees (params.exchange.getD "OKX")
              (params.feeTier.getD "Tier 1") (params.orderType.getD "market")
              (params.quantityUSD.getD 100)
              (some { maker := (MakerTakerModel.predict_proportion pexp []
                        (params.quantityUSD.getD 100) (params.orderType.getD "market")
                        (params.volatility.getD (1 / 50))).maker
                      taker := (MakerTakerModel.predict_proportion pexp []
                        (params.quantityUSD.getD 100) (params.orderType.getD "market")
                        (params.volatility.getD (1 / 50))).taker })).total_fee_usd
            expectedMarketImpactUSD := (AlmgrenChrissModel.calculate_market_impact psqrt
              (params.quantityUSD.getD 100) (params.volatility.getD (1 / 50)) none
              none).total_impact_usd
            netCostUSD := (SlippageModel.predict_slippage []
                (params.quantityUSD.getD 100) true (params.volatility.getD (1 / 50))).slippage_usd
              + (FeeModel.calculate_fees (params.exchange.getD "OKX")
                  (params.feeTier.getD "Tier 1") (params.orderType.getD "market")
                  (params.quantityUSD.getD 100)
                  (some { maker := (MakerTakerModel.predict_proportion pexp []
                            (params.quantityUSD.getD 100) (params.orderType.getD "market")
                            (params.volatility.getD (1 / 50))).maker
                          taker := (MakerTakerModel.predict_proportion pexp []
                            (params.quantityUSD.getD 100) (params.orderType.getD "market")
                            (params.volatility.getD (1 / 50))).taker })).total_fee_usd
              + (AlmgrenChrissModel.calculate_market_impact psqrt
                  (params.quantityUSD.getD 100) (params.volatility.getD (1 / 50)) none
                  none).total_impact_usd
            maker := (MakerTakerModel.predict_proportion pexp []
              (params.quantityUSD.getD 100) (params.orderType.getD "market")
              (params.volatility.getD (1 / 50))).maker
            taker := (MakerTakerModel.predict_proportion pexp []
              (params.quantityUSD.getD 100) (params.orderType.getD "market")
              (params.volatility.getD (1 / 50))).taker })) := by
  constructor
  · intro pexp psqrt params g t
    cases hb : SimulationEngine.process_tick_body pexp psqrt params g t with
    | ok out =>
      exact ⟨TickOutput.success out, by simp [SimulationEngine.process_tick, hb]⟩
    | error e =>
      exact ⟨TickOutput.error e, by simp [SimulationEngine.process_tick, hb]⟩
  · intro pexp psqrt params symbol max_depth t hasks hbids
    cases t with
    | mk ts ta tb =>
      simp only at hasks hbids
      subst hasks hbids
      rfl

/-- Witness for C3: a first tick with empty depth arrays on a fresh book
yields the success record computed from the empty feature map. -/
theorem process_tick_always_returns_witness :
    SimulationEngine.process_tick (fun _ => 1) (fun _ => 1)
      { exchange := none, orderType := none, quantityUSD := none, volatility := none, feeTier := none }
      (OrderBookG.init "BTC-USDT" 20)
      { timestamp := 0, asks := PyList.list [], bids := PyList.list [] }
      = Except.ok (TickOutput.success
        { expectedSlippageUSD := (SlippageModel.predict_slippage [] 100 true (1 / 50)).slippage_usd
          expectedFeesUSD := (FeeModel.calculate_fees "OKX" "Tier 1" "market" 100
            (some { maker := (MakerTakerModel.predict_proportion (fun _ => 1) [] 100 "market" (1 / 50)).maker
                    taker := (MakerTakerModel.predict_proportion (fun _ => 1) [] 100 "market" (1 / 50)).taker })).total_fee_usd
          expectedMarketImpactUSD := (AlmgrenChrissModel.calculate_market_impact (fun _ => 1) 100 (1 / 50) none none).total_impact_usd
          netCostUSD := (SlippageModel.predict_slippage [] 100 true (1 / 50)).slippage_usd
            + (FeeModel.calculate_fees "OKX" "Tier 1" "market" 100
                (some { maker := (MakerTakerModel.predict_proportion (fun _ => 1) [] 100 "market" (1 / 50)).maker
                        taker := (MakerTakerModel.predict_proportion (fun _ => 1) [] 100 "market" (1 / 50)).taker })).total_fee_usd
            + (AlmgrenChrissModel.calculate_market_impact (fun _ => 1) 100 (1 / 50) none none).total_impact_usd
          maker := (MakerTakerModel.predict_proportion (fun _ => 1) [] 100 "market" (1 / 50)).maker
          taker := (MakerTakerModel.predict_proportion (fun _ => 1) [] 100 "market" (1 / 50)).taker }) :=
  process_tick_always_returns.2 (fun _ => 1) (fun _ => 1)
    { exchange := none, orderType := none, quantityUSD := none, volatility := none, feeTier := none }
    "BTC-USDT" 20
    { timestamp := 0, asks := PyList.list [], bids := PyList.list [] } rfl rfl

/-- The notional of positive levels is non-negative. -/
theorem levelsNotional_nonneg (L : List (ℚ × ℚ)) (h : PosLevels L) :
    0 ≤ levelsNotional L := by
  induction L with
  | nil => simp [levelsNotional]
  | cons l rest ih =>
    have hl := h l (List.mem_cons_self _ _)
    have hrest : PosLevels rest := fun x hx => h x (List.mem_cons_of_mem _ hx)
    simp only [levelsNotional, List.map_cons, List.sum_cons]
    have := ih hrest
    simp only [levelsNotional] at this
    nlinarith [hl.1, hl.2]

/-- The greedy USD walk charges exactly the walked notional: the total cost
is `min(quantity, side notional)` — an exhausted side leaves the remainder
uncosted. -/
theorem walkUsd_cost (L : List (ℚ × ℚ)) : ∀ r, PosLevels L → 0 < r →
    (walkUsd L r).1 = min r (levelsNotional L) := by
  induction L with
  | nil =>
    intro r _ hr
    simp [walkUsd, levelsNotional, min_eq_right hr.le]
  | cons l rest ih =>
    intro r hpos hr
    obtain ⟨p, a⟩ := l
    have hp : 0 < p := (hpos (p, a) (List.mem_cons_self _ _)).1
    have ha : 0 < a := (hpos (p, a) (List.mem_cons_self _ _)).2
    have hrest : PosLevels rest := fun x hx => hpos x (List.mem_cons_of_mem _ hx)
    have hn : 0 < p * a := mul_pos hp ha
    have hNrest : 0 ≤ levelsNotional rest := levelsNotional_nonneg rest hrest
    simp only [walkUsd]
    by_cases hstop : r - min r (p * a) ≤ 0
    · rw [if_pos hstop]
      have hmin : min r (p * a) = r := by
        rcases min_cases r (p * a) with ⟨h1, _⟩ | ⟨h1, h2⟩
        · exact h1
        · nlinarith
      rw [hmin]
      have hcost : r / p * p = r := div_mul_cancel₀ r hp.ne'
      rw [hcost]
      have hrn : r ≤ p * a := by
        by_contra hcon
        push_neg at hcon
        rw [min_eq_right hcon.le] at hstop
        nlinarith
      simp only [levelsNotional, List.map_cons, List.sum_cons]
      have : r ≤ p * a + (List.map (fun x => x.1 * x.2) rest).sum := by
        have := hNrest
        simp only [levelsNotional] at this
        linarith
      rw [min_eq_left this]
    · rw [if_neg hstop]
      push_neg at hstop
      have hmin : min r (p * a) = p * a := by
        rcases min_cases r (p * a) with ⟨h1, h2⟩ | ⟨h1, _⟩
        · rw [h1] at hstop; linarith
        · exact h1
      rw [hmin]
      have hcost : p * a / p * p = p * a := by
        field_simp
        ring
      rw [hcost]
      have hr2 : 0 < r - p * a := by rw [hmin] at hstop; exact hstop
      have := ih (r - p * a) hrest hr2
      rw [this]
      simp only [levelsNotional, List.map_cons, List.sum_cons]
      have hsplit : min r (p * a + (List.map (fun x => x.1 * x.2) rest).sum)
          = p * a + min (r - p * a) (List.map (fun x => x.1 * x.2) rest).sum := by
        rcases le_total (r - p * a) (List.map (fun x => x.1 * x.2) rest).sum with h | h
        · rw [min_eq_left h, min_eq_left (by linarith)]
          ring
        · rw [min_eq_right h, min_eq_right (by linarith)]
      rw [hsplit]

/-- The filled base-asset quantity of the walk is non-negative. -/
theorem walkUsd_qty_nonneg (L : List (ℚ × ℚ)) : ∀ r, PosLevels L → 0 < r →
    0 ≤ (walkUsd L r).2 := by
  induction L with
  | nil => intro r _ _; simp [walkUsd]
  | cons l rest ih =>
    intro r hpos hr
    obtain ⟨p, a⟩ := l
    have hp : 0 < p := (hpos (p, a) (List.mem_cons_self _ _)).1
    have ha : 0 < a := (hpos (p, a) (List.mem_cons_self _ _)).2
    have hrest : PosLevels rest := fun x hx => hpos x (List.mem_cons_of_mem _ hx)
    have hn : 0 < p * a := mul_pos hp ha
    have hf : 0 < min r (p * a) := lt_min hr hn
    simp only [walkUsd]
    by_cases hstop : r - min r (p * a) ≤ 0
    · rw [if_pos hstop]
      positivity
    · rw [if_neg hstop]
      push_neg at hstop
      have h1 : 0 ≤ min r (p * a) / p := by positivity
      have h2 := ih (r - min r (p * a)) hrest hstop
      simp only
      positivity

/-- The filled base-asset quantity of the walk on a non-empty side is
positive. -/
theorem walkUsd_qty_pos (L : List (ℚ × ℚ)) (r : ℚ) (hpos : PosLevels L)
    (hne : L ≠ []) (hr : 0 < r) : 0 < (walkUsd L r).2 := by
  cases L with
  | nil => exact absurd rfl hne
  | cons l rest =>
    obtain ⟨p, a⟩ := l
    have hp : 0 < p := (hpos (p, a) (List.mem_cons_self _ _)).1
    have ha : 0 < a := (hpos (p, a) (List.mem_cons_self _ _)).2
    have hrest : PosLevels rest := fun x hx => hpos x (List.mem_cons_of_mem _ hx)
    have hn : 0 < p * a := mul_pos hp ha
    have hf : 0 < min r (p * a) := lt_min hr hn
    simp only [walkUsd]
    by_cases hstop : r - min r (p * a) ≤ 0
    · rw [if_pos hstop]
      positivity
    · rw [if_neg hstop]
      push_neg at hstop
      have h2 := walkUsd_qty_nonneg rest (r - min r (p * a)) hrest hstop
      have h1 : 0 < min r (p * a) / p := by positivity
      simp only
      positivity

/-- On a side whose prices all lie above `p0`, the walk fills at most
`r / p0` base units. -/
theorem walkUsd_qty_ub (p0 : ℚ) (hp0 : 0 < p0) (L : List (ℚ × ℚ)) : ∀ r,
    PosLevels L → (∀ l ∈ L, p0 ≤ l.1) → 0 < r →
    (walkUsd L r).2 ≤ r / p0 := by
  induction L with
  | nil =>
    intro r _ _ hr
    simp only [walkUsd]
    positivity
  | cons l rest ih =>
    intro r hpos hlb hr
    obtain ⟨p, a⟩ := l
    have hp : 0 < p := (hpos (p, a) (List.mem_cons_self _ _)).1
    have ha : 0 < a := (hpos (p, a) (List.mem_cons_self _ _)).2
    have hp0p : p0 ≤ p := hlb (p, a) (List.mem_cons_self _ _)
    have hrest : PosLevels rest := fun x hx => hpos x (List.mem_cons_of_mem _ hx)
    have hlbrest : ∀ l ∈ rest, p0 ≤ l.1 := fun x hx => hlb x (List.mem_cons_of_mem _ hx)
    have hn : 0 < p * a := mul_pos hp ha
    simp only [walkUsd]
    by_cases hstop : r - min r (p * a) ≤ 0
    · rw [if_pos hstop]
      have hmin : min r (p * a) = r :=
        le_antisymm (min_le_left _ _) (by linarith)
      rw [hmin]
      simp only
      gcongr
    · rw [if_neg hstop]
      push_neg at hstop
      have hmin : min r (p * a) = p * a := by
        rcases min_cases r (p * a) with ⟨h1, _⟩ | ⟨h1, _⟩
        · rw [h1] at hstop; linarith
        · exact h1
      rw [hmin] at hstop ⊢
      have hih := ih (r - p * a) hrest hlbrest hstop
      have h1 : p * a / p ≤ p * a / p0 := by gcongr
      have h2 : p * a / p0 + (r - p * a) / p0 = r / p0 := by
        field_simp
      simp only
      linarith

/-- Marginal fill bound from above: extra notional `t - s` fills at most
`(t - s) / p0` extra base units when all prices lie above `p0`. -/
theorem walkUsd_qty_diff_ub (p0 : ℚ) (hp0 : 0 < p0) (L : List (ℚ × ℚ)) : ∀ s t,
    PosLevels L → (∀ l ∈ L, p0 ≤ l.1) → 0 < s → s ≤ t →
    (walkUsd L t).2 - (walkUsd L s).2 ≤ (t - s) / p0 := by
  induction L with
  | nil =>
    intro s t _ _ hs hst
    have h1 : (walkUsd [] t).2 = 0 := rfl
    have h2 : (walkUsd [] s).2 = 0 := rfl
    rw [h1, h2]
    have h3 : 0 ≤ t - s := by linarith
    have := div_nonneg h3 hp0.le
    linarith
  | cons l rest ih =>
    intro s t hpos hlb hs hst
    obtain ⟨p, a⟩ := l
    have hp : 0 < p := (hpos (p, a) (List.mem_cons_self _ _)).1
    have ha : 0 < a := (hpos (p, a) (List.mem_cons_self _ _)).2
    have hp0p : p0 ≤ p := hlb (p, a) (List.mem_cons_self _ _)
    have hrest : PosLevels rest := fun x hx => hpos x (List.mem_cons_of_mem _ hx)
    have hlbrest : ∀ l ∈ rest, p0 ≤ l.1 := fun x hx => hlb x (List.mem_cons_of_mem _ hx)
    have hn : 0 < p * a := mul_pos hp ha
    have ht : 0 < t := lt_of_lt_of_le hs hst
    simp only [walkUsd]
    by_cases htstop : t - min t (p * a) ≤ 0
    · have hmt : min t (p * a) = t := le_antisymm (min_le_left _ _) (by linarith)
      have htn : t ≤ p * a := by
        rcases min_cases t (p * a) with ⟨_, h2⟩ | ⟨h1, _⟩
        · exact h2
        · rw [hmt] at h1; linarith [h1 ▸ le_refl t]
      have hsn : s ≤ p * a := le_trans hst htn
      have hms : min s (p * a) = s := min_eq_left hsn
      have hsstop : s - min s (p * a) ≤ 0 := by rw [hms]; linarith
      rw [if_pos htstop, if_pos hsstop, hmt, hms]
      simp only
      have h3 : t / p - s / p = (t - s) / p := by ring
      have h4 : (t - s) / p ≤ (t - s) / p0 := by
        have : 0 ≤ t - s := by linarith
        gcongr
      linarith
    · push_neg at htstop
      have hmt : min t (p * a) = p * a := by
        rcases min_cases t (p * a) with ⟨h1, _⟩ | ⟨h1, _⟩
        · rw [h1] at htstop; linarith
        · exact h1
      rw [if_neg (by rw [hmt]; linarith)]
      rw [hmt] at htstop
      by_cases hsstop : s - min s (p * a) ≤ 0
      · have hms : min s (p * a) = s := le_antisymm (min_le_left _ _) (by linarith)
        have hsn : s ≤ p * a := by
          rcases min_cases s (p * a) with ⟨_, h2⟩ | ⟨h1, _⟩
          · exact h2
          · rw [hms] at h1; linarith [h1 ▸ le_refl s]
        rw [if_pos hsstop, hms]
        have hub := walkUsd_qty_ub p0 hp0 rest (t - p * a) hrest hlbrest htstop
        simp only
        have h1 : p * a / p = a := by field_simp
        have h2 : s / p ≥ s / p := le_refl _
        have h3 : (p * a - s) / p ≤ (p * a - s) / p0 := by
          have : 0 ≤ p * a - s := by linarith
          gcongr
        have h4 : p * a / p - s / p = (p * a - s) / p := by ring
        have h5 : (p * a - s) / p0 + (t - p * a) / p0 = (t - s) / p0 := by
          field_simp
        rw [hmt]
        linarith
      · push_neg at hsstop
        have hms : min s (p * a) = p * a := by
          rcases min_cases s (p * a) with ⟨h1, _⟩ | ⟨h1, _⟩
          · rw [h1] at hsstop; linarith
          · exact h1
        rw [if_neg (by rw [hms]; linarith), hms]
        rw [hms] at hsstop
        have hih := ih (s - p * a) (t - p * a) hrest hlbrest hsstop (by linarith)
        simp only
        have : t - p * a - (s - p * a) = t - s := by ring
        rw [this] at hih
        rw [hmt]
        linarith

/-- Average-price monotonicity core for buys: on a side with strictly
ascending positive prices, the filled quantity per USD can only shrink as
the order grows: `x * Q(y) ≤ y * Q(x)` for `0 < x ≤ y`. -/
theorem walkUsd_mono_buy (L : List (ℚ × ℚ)) : ∀ x y,
    PosLevels L → List.Pairwise (fun u v => u.1 < v.1) L → 0 < x → x ≤ y →
    x * (walkUsd L y).2 ≤ y * (walkUsd L x).2 := by
  induction L with
  | nil =>
    intro x y _ _ hx hxy
    simp [walkUsd]
  | cons l rest ih =>
    intro x y hpos hsort hx hxy
    obtain ⟨p, a⟩ := l
    have hp : 0 < p := (hpos (p, a) (List.mem_cons_self _ _)).1
    have ha : 0 < a := (hpos (p, a) (List.mem_cons_self _ _)).2
    have hrest : PosLevels rest := fun v hv => hpos v (List.mem_cons_of_mem _ hv)
    have hlt : ∀ v ∈ rest, p < v.1 := (List.pairwise_cons.mp hsort).1
    have hle : ∀ v ∈ rest, p ≤ v.1 := fun v hv => (hlt v hv).le
    have hsort' : List.Pairwise (fun u v => u.1 < v.1) rest :=
      (List.pairwise_cons.mp hsort).2
    have hy : 0 < y := lt_of_lt_of_le hx hxy
    have hn : 0 < p * a := mul_pos hp ha
    simp only [walkUsd]
    by_cases hystop : y - min y (p * a) ≤ 0
    · have hmy : min y (p * a) = y := le_antisymm (min_le_left _ _) (by linarith)
      have hyn : y ≤ p * a := by
        rcases min_cases y (p * a) with ⟨_, h2⟩ | ⟨h1, h2⟩
        · exact h2
        · linarith
      have hxn : x ≤ p * a := le_trans hxy hyn
      have hmx : min x (p * a) = x := min_eq_left hxn
      have hxstop : x - min x (p * a) ≤ 0 := by rw [hmx]; linarith
      rw [if_pos hystop, if_pos hxstop, hmy, hmx]
      simp only
      have : x * (y / p) = y * (x / p) := by ring
      linarith
    · push_neg at hystop
      have hmy : min y (p * a) = p * a := by
        rcases min_cases y (p * a) with ⟨h1, _⟩ | ⟨h1, _⟩
        · rw [h1] at hystop; linarith
        · exact h1
      rw [if_neg (by rw [hmy]; linarith)]
      rw [hmy] at hystop ⊢
      have hna : p * a / p = a := by field_simp
      by_cases hxstop : x - min x (p * a) ≤ 0
      · have hmx : min x (p * a) = x := le_antisymm (min_le_left _ _) (by linarith)
        have hxn : x ≤ p * a := by
          rcases min_cases x (p * a) with ⟨_, h2⟩ | ⟨h1, h2⟩
          · exact h2
          · linarith
        rw [if_pos hxstop, hmx]
        simp only
        have hub := walkUsd_qty_ub p hp rest (y - p * a) hrest hle hystop
        have hkey : a + (walkUsd rest (y - p * a)).2 ≤ y / p := by
          have h1 : a + (y - p * a) / p = y / p := by field_simp; ring
          linarith
        have h2 : x * (p * a / p + (walkUsd rest (y - p * a)).2) ≤ x * (y / p) := by
          rw [hna]
          exact mul_le_mul_of_nonneg_left hkey hx.le
        have h3 : x * (y / p) = y * (x / p) := by ring
        linarith
      · push_neg at hxstop
        have hmx : min x (p * a) = p * a := by
          rcases min_cases x (p * a) with ⟨h1, _⟩ | ⟨h1, _⟩
          · rw [h1] at hxstop; linarith
          · exact h1
        rw [if_neg (by rw [hmx]; linarith), hmx]
        rw [hmx] at hxstop
        simp only
        have hih := ih (x - p * a) (y - p * a) hrest hsort' hxstop (by linarith)
        have hD := walkUsd_qty_diff_ub p hp rest (x - p * a) (y - p * a) hrest hle
          hxstop (by linarith)
        have hD2 : p * a * ((walkUsd rest (y - p * a)).2 - (walkUsd rest (x - p * a)).2)
            ≤ p * a * ((y - p * a - (x - p * a)) / p) :=
          mul_le_mul_of_nonneg_left hD hn.le
        have hD3 : p * a * ((y - p * a - (x - p * a)) / p) = a * (y - x) := by
          field_simp
          ring
        rw [hna]
        nlinarith [hih, hD2, hD3]

/-- On a side whose prices all lie below `p0`, a fillable notional `s` fills
at least `s / p0` base units. -/
theorem walkUsd_qty_lb (p0 : ℚ) (hp0 : 0 < p0) (L : List (ℚ × ℚ)) : ∀ s,
    PosLevels L → (∀ l ∈ L, l.1 ≤ p0) → 0 < s → s ≤ levelsNotional L →
    s / p0 ≤ (walkUsd L s).2 := by
  induction L with
  | nil =>
    intro s _ _ hs hsn
    simp only [levelsNotional, List.map_nil, List.sum_nil] at hsn
    linarith
  | cons l rest ih =>
    intro s hpos hub hs hsn
    obtain ⟨p, a⟩ := l
    have hp : 0 < p := (hpos (p, a) (List.mem_cons_self _ _)).1
    have ha : 0 < a := (hpos (p, a) (List.mem_cons_self _ _)).2
    have hpp0 : p ≤ p0 := hub (p, a) (List.mem_cons_self _ _)
    have hrest : PosLevels rest := fun v hv => hpos v (List.mem_cons_of_mem _ hv)
    have hubrest : ∀ l ∈ rest, l.1 ≤ p0 := fun v hv => hub v (List.mem_cons_of_mem _ hv)
    have hn : 0 < p * a := mul_pos hp ha
    have hNsplit : levelsNotional ((p, a) :: rest) = p * a + levelsNotional rest := by
      simp [levelsNotional]
    rw [hNsplit] at hsn
    simp only [walkUsd]
    by_cases hstop : s - min s (p * a) ≤ 0
    · have hms : min s (p * a) = s := le_antisymm (min_le_left _ _) (by linarith)
      rw [if_pos hstop, hms]
      simp only
      gcongr
    · push_neg at hstop
      have hms : min s (p * a) = p * a := by
        rcases min_cases s (p * a) with ⟨h1, _⟩ | ⟨h1, _⟩
        · rw [h1] at hstop; linarith
        · exact h1
      rw [if_neg (by linarith), hms]
      rw [hms] at hstop
      have hih := ih (s - p * a) hrest hubrest hstop (by linarith)
      simp only
      have h1 : p * a / p0 ≤ p * a / p := by gcongr
      have h2 : p * a / p0 + (s - p * a) / p0 = s / p0 := by field_simp
      linarith

/-- Marginal fill bound from below: on a side with prices below `p0`, extra
fillable notional `t - s` fills at least `(t - s) / p0` extra base units. -/
theorem walkUsd_qty_diff_lb (p0 : ℚ) (hp0 : 0 < p0) (L : List (ℚ × ℚ)) : ∀ s t,
    PosLevels L → (∀ l ∈ L, l.1 ≤ p0) → 0 < s → s ≤ t → t ≤ levelsNotional L →
    (t - s) / p0 ≤ (walkUsd L t).2 - (walkUsd L s).2 := by
  induction L with
  | nil =>
    intro s t _ _ hs hst htn
    simp only [levelsNotional, List.map_nil, List.sum_nil] at htn
    linarith
  | cons l rest ih =>
    intro s t hpos hub hs hst htn
    obtain ⟨p, a⟩ := l
    have hp : 0 < p := (hpos (p, a) (List.mem_cons_self _ _)).1
    have ha : 0 < a := (hpos (p, a) (List.mem_cons_self _ _)).2
    have hpp0 : p ≤ p0 := hub (p, a) (List.mem_cons_self _ _)
    have hrest : PosLevels rest := fun v hv => hpos v (List.mem_cons_of_mem _ hv)
    have hubrest : ∀ l ∈ rest, l.1 ≤ p0 := fun v hv => hub v (List.mem_cons_of_mem _ hv)
    have hn : 0 < p * a := mul_pos hp ha
    have ht : 0 < t := lt_of_lt_of_le hs hst
    have hNsplit : levelsNotional ((p, a) :: rest) = p * a + levelsNotional rest := by
      simp [levelsNotional]
    rw [hNsplit] at htn
    simp only [walkUsd]
    by_cases htstop : t - min t (p * a) ≤ 0
    · have hmt : min t (p * a) = t := le_antisymm (min_le_left _ _) (by linarith)
      have hsn : s ≤ p * a := by
        have htn' : t ≤ p * a := by
          rcases min_cases t (p * a) with ⟨_, h2⟩ | ⟨h1, _⟩
          · exact h2
          · linarith
        linarith
      have hms : min s (p * a) = s := min_eq_left hsn
      have hsstop : s - min s (p * a) ≤ 0 := by rw [hms]; linarith
      rw [if_pos htstop, if_pos hsstop, hmt, hms]
      simp only
      have h3 : t / p - s / p = (t - s) / p := by ring
      have h4 : (t - s) / p0 ≤ (t - s) / p := by
        have : 0 ≤ t - s := by linarith
        gcongr
      linarith
    · push_neg at htstop
      have hmt : min t (p * a) = p * a := by
        rcases min_cases t (p * a) with ⟨h1, _⟩ | ⟨h1, _⟩
        · rw [h1] at htstop; linarith
        · exact h1
      rw [hmt] at htstop
      rw [if_neg (by rw [hmt]; linarith), hmt]
      by_cases hsstop : s - min s (p * a) ≤ 0
      · have hms : min s (p * a) = s := le_antisymm (min_le_left _ _) (by linarith)
        have hsn : s ≤ p * a := by
          rcases min_cases s (p * a) with ⟨_, h2⟩ | ⟨h1, _⟩
          · exact h2
          · rw [hms] at h1; linarith
        rw [if_pos hsstop, hms]
        simp only
        have hlb := walkUsd_qty_lb p0 hp0 rest (t - p * a) hrest hubrest htstop
          (by linarith)
        have h1 : p * a / p = a := by field_simp
        have h2 : (p * a - s) / p0 ≤ (p * a - s) / p := by
          have : 0 ≤ p * a - s := by linarith
          gcongr
        have h3 : p * a / p - s / p = (p * a - s) / p := by ring
        have h4 : (p * a - s) / p0 + (t - p * a) / p0 = (t - s) / p0 := by
          field_simp
        linarith
      · push_neg at hsstop
        have hms : min s (p * a) = p * a := by
          rcases min_cases s (p * a) with ⟨h1, _⟩ | ⟨h1, _⟩
          · rw [h1] at hsstop; linarith
          · exact h1
        rw [hms] at hsstop
        rw [if_neg (by linarith), hms]
        simp only
        have hih := ih (s - p * a) (t - p * a) hrest hubrest hsstop (by linarith)
          (by linarith)
        have heq : t - p * a - (s - p * a) = t - s := by ring
        rw [heq] at hih
        linarith

/-- Average-price monotonicity core for sells: on a side with strictly
descending positive prices, the filled quantity per USD can only grow as a
fillable order grows: `y * Q(x) ≤ x * Q(y)` for `0 < x ≤ y ≤ notional`. -/
theorem walkUsd_mono_sell (L : List (ℚ × ℚ)) : ∀ x y,
    PosLevels L → List.Pairwise (fun u v => v.1 < u.1) L → 0 < x → x ≤ y →
    y ≤ levelsNotional L →
    y * (walkUsd L x).2 ≤ x * (walkUsd L y).2 := by
  induction L with
  | nil =>
    intro x y _ _ hx hxy hyn
    simp only [levelsNotional, List.map_nil, List.sum_nil] at hyn
    linarith
  | cons l rest ih =>
    intro x y hpos hsort hx hxy hyn
    obtain ⟨p, a⟩ := l
    have hp : 0 < p := (hpos (p, a) (List.mem_cons_self _ _)).1
    have ha : 0 < a := (hpos (p, a) (List.mem_cons_self _ _)).2
    have hrest : PosLevels rest := fun v hv => hpos v (List.mem_cons_of_mem _ hv)
    have hgt : ∀ v ∈ rest, v.1 < p := (List.pairwise_cons.mp hsort).1
    have hgle : ∀ v ∈ rest, v.1 ≤ p := fun v hv => (hgt v hv).le
    have hsort' : List.Pairwise (fun u v => v.1 < u.1) rest :=
      (List.pairwise_cons.mp hsort).2
    have hy : 0 < y := lt_of_lt_of_le hx hxy
    have hn : 0 < p * a := mul_pos hp ha
    have hNsplit : levelsNotional ((p, a) :: rest) = p * a + levelsNotional rest := by
      simp [levelsNotional]
    rw [hNsplit] at hyn
    simp only [walkUsd]
    by_cases hystop : y - min y (p * a) ≤ 0
    · have hmy : min y (p * a) = y := le_antisymm (min_le_left _ _) (by linarith)
      have hyn' : y ≤ p * a := by
        rcases min_cases y (p * a) with ⟨_, h2⟩ | ⟨h1, _⟩
        · exact h2
        · linarith
      have hxn : x ≤ p * a := le_trans hxy hyn'
      have hmx : min x (p * a) = x := min_eq_left hxn
      have hxstop : x - min x (p * a) ≤ 0 := by rw [hmx]; linarith
      rw [if_pos hystop, if_pos hxstop, hmy, hmx]
      simp only
      have : y * (x / p) = x * (y / p) := by ring
      linarith
    · push_neg at hystop
      have hmy : min y (p * a) = p * a := by
        rcases min_cases y (p * a) with ⟨h1, _⟩ | ⟨h1, _⟩
        · rw [h1] at hystop; linarith
        · exact h1
      rw [hmy] at hystop
      have hna : p * a / p = a := by field_simp
      by_cases hxstop : x - min x (p * a) ≤ 0
      · have hmx : min x (p * a) = x := le_antisymm (min_le_left _ _) (by linarith)
        have hxn : x ≤ p * a := by
          rcases min_cases x (p * a) with ⟨_, h2⟩ | ⟨h1, _⟩
          · exact h2
          · linarith
        rw [if_pos hxstop, if_neg (show ¬ y - min y (p * a) ≤ 0 by rw [hmy]; linarith),
          hmx, hmy]
        simp only
        have hlb := walkUsd_qty_lb p hp rest (y - p * a) hrest hgle hystop
          (by linarith)
        have hkey : y / p ≤ a + (walkUsd rest (y - p * a)).2 := by
          have h1 : a + (y - p * a) / p = y / p := by field_simp; ring
          linarith
        have h2 : x * (y / p) ≤ x * (p * a / p + (walkUsd rest (y - p * a)).2) := by
          rw [hna]
          exact mul_le_mul_of_nonneg_left hkey hx.le
        have h3 : y * (x / p) = x * (y / p) := by ring
        linarith
      · push_neg at hxstop
        have hmx : min x (p * a) = p * a := by
          rcases min_cases x (p * a) with ⟨h1, _⟩ | ⟨h1, _⟩
          · rw [h1] at hxstop; linarith
          · exact h1
        rw [hmx] at hxstop
        rw [if_neg (show ¬ x - min x (p * a) ≤ 0 by rw [hmx]; linarith),
          if_neg (show ¬ y - min y (p * a) ≤ 0 by rw [hmy]; linarith), hmx, hmy]
        simp only
        have hih := ih (x - p * a) (y - p * a) hrest hsort' hxstop (by linarith)
          (by linarith)
        have hD := walkUsd_qty_diff_lb p hp rest (x - p * a) (y - p * a) hrest hgle
          hxstop (by linarith) (by linarith)
        have hD2 : p * a * ((y - p * a - (x - p * a)) / p)
            ≤ p * a * ((walkUsd rest (y - p * a)).2 - (walkUsd rest (x - p * a)).2) :=
          mul_le_mul_of_nonneg_left hD hn.le
        have hD3 : p * a * ((y - p * a - (x - p * a)) / p) = a * (y - x) := by
          field_simp
          ring
        rw [hna]
        nlinarith [hih, hD2, hD3]

/-- Projections of `calculate_market_order_cost` in terms of the walk, for a
positive order on a book with a mid price. -/
theorem calculate_market_order_cost_eq (b : OrderBookQ) (q : ℚ) (is_buy : Bool)
    (m : ℚ) (hmid : b.get_mid_price = some m) (hq : 0 < q) :
    (b.calculate_market_order_cost q is_buy).1
      = (walkUsd ((if is_buy then b.asks else b.bids).map (fun e => e.2)) q).1
    ∧ (b.calculate_market_order_cost q is_buy).2.1
      = (if 0 < (walkUsd ((if is_buy then b.asks else b.bids).map (fun e => e.2)) q).2
         then (walkUsd ((if is_buy then b.asks else b.bids).map (fun e => e.2)) q).1
           / (walkUsd ((if is_buy then b.asks else b.bids).map (fun e => e.2)) q).2
         else 0) := by
  constructor <;>
    simp only [OrderBookQ.calculate_market_order_cost, if_neg (not_le.mpr hq), hmid]

/-- C4 counterexample: a buy for 200 USD against a book whose only ask level
holds 100 USD of notional returns total cost 100 — the walked portion only.
The claim's policy (cost the 100 USD remainder at the last available price,
100) would give a total cost of 200. -/
theorem market_order_cost_counterexample :
    OrderBookQ.empty.update
        { bids := [[Tok.num 99, Tok.num 1]], asks := [[Tok.num 100, Tok.num 1]] }
      = Except.ok { bids := [(-99, (99, 1))], asks := [(100, (100, 1))] }
    ∧ (({ bids := [(-99, (99, 1))], asks := [(100, (100, 1))] } : OrderBookQ).calculate_market_order_cost 200 true).1
      = 100
    ∧ (100 : ℚ) ≠ 200 := by
  refine ⟨rfl, ?_, by norm_num⟩
  norm_num [OrderBookQ.calculate_market_order_cost, OrderBookQ.get_mid_price,
    OrderBookQ.get_best_bid, OrderBookQ.get_best_ask, walkUsd, min_def]

/-- C4 amended: `calculate_market_order_cost` walks the side greedily from
the best price; when the side is exhausted before the USD notional is
filled, the remainder is NOT costed — it is only logged as a warning — so
the returned total cost is `min(quantity_usd, side notional)`; and the
returned average price times the base-asset quantity actually filled equals
the total cost (i.e. average price = total cost / filled quantity whenever
anything fills).  The remainder-at-last-price policy exists only in
order_book.py's `_estimate_price_impact`. -/
theorem market_order_cost_amended (b : OrderBookQ) (quantity_usd : ℚ) (is_buy : Bool)
    (bb ba : ℚ) (hbb : b.get_best_bid = some bb) (hba : b.get_best_ask = some ba)
    (hpos : PosLevels ((if is_buy then b.asks else b.bids).map (fun e => e.2)))
    (hq : 0 < quantity_usd) :
    (b.calculate_market_order_cost quantity_usd is_buy).1
      = min quantity_usd
          (levelsNotional ((if is_buy then b.asks else b.bids).map (fun e => e.2)))
    ∧ (b.calculate_market_order_cost quantity_usd is_buy).2.1
        * (walkUsd ((if is_buy then b.asks else b.bids).map (fun e => e.2)) quantity_usd).2
      = (b.calculate_market_order_cost quantity_usd is_buy).1 := by
  have hmid : b.get_mid_price = some ((bb + ba) / 2) := by
    simp [OrderBookQ.get_mid_price, hbb, hba]
  obtain ⟨hc, ha⟩ := calculate_market_order_cost_eq b quantity_usd is_buy _ hmid hq
  constructor
  · rw [hc]
    exact walkUsd_cost _ quantity_usd hpos hq
  · rw [hc, ha]
    by_cases hq2 : 0 < (walkUsd ((if is_buy then b.asks else b.bids).map (fun e => e.2))
        quantity_usd).2
    · rw [if_pos hq2]
      exact div_mul_cancel₀ _ hq2.ne'
    · rw [if_neg hq2]
      have hnil : ((if is_buy then b.asks else b.bids).map (fun e => e.2)) = [] := by
        by_contra hne
        exact hq2 (walkUsd_qty_pos _ quantity_usd hpos hne hq)
      rw [hnil]
      simp [walkUsd]

/-- Witness for the amended C4: the exhausted-book buy of the
counterexample. -/
theorem market_order_cost_amended_witness :
    (({ bids := [(-99, (99, 1))], asks := [(100, (100, 1))] } : OrderBookQ).calculate_market_order_cost 200 true).1
      = min 200 (levelsNotional ((if true then ({ bids := [(-99, (99, 1))], asks := [(100, (100, 1))] } : OrderBookQ).asks else ({ bids := [(-99, (99, 1))], asks := [(100, (100, 1))] } : OrderBookQ).bids).map (fun e => e.2)))
    ∧ (({ bids := [(-99, (99, 1))], asks := [(100, (100, 1))] } : OrderBookQ).calculate_market_order_cost 200 true).2.1
        * (walkUsd ((if true then ({ bids := [(-99, (99, 1))], asks := [(100, (100, 1))] } : OrderBookQ).asks else ({ bids := [(-99, (99, 1))], asks := [(100, (100, 1))] } : OrderBookQ).bids).map (fun e => e.2)) 200).2
      = (({ bids := [(-99, (99, 1))], asks := [(100, (100, 1))] } : OrderBookQ).calculate_market_order_cost 200 true).1 :=
  market_order_cost_amended { bids := [(-99, (99, 1))], asks := [(100, (100, 1))] }
    200 true 99 100 rfl rfl (by unfold PosLevels; decide) (by norm_num)

set_option maxHeartbeats 1000000 in
/-- C5: on a two-sided book whose ask prices are strictly ascending and bid
prices strictly descending (all positive), for order sizes
`0 < q1 ≤ q2` both fillable from the side's liquidity, the average price
returned by `calculate_market_order_cost` is non-decreasing in the USD
quantity for buys and non-increasing for sells. -/
theorem market_order_avg_price_monotone (b : OrderBookQ) (q1 q2 bb ba : ℚ)
    (hbb : b.get_best_bid = some bb) (hba : b.get_best_ask = some ba)
    (hposA : PosLevels (b.asks.map (fun e => e.2)))
    (hposB : PosLevels (b.bids.map (fun e => e.2)))
    (hsortA : List.Pairwise (fun u v => u.1 < v.1) (b.asks.map (fun e => e.2)))
    (hsortB : List.Pairwise (fun u v => v.1 < u.1) (b.bids.map (fun e => e.2)))
    (hq1 : 0 < q1) (h12 : q1 ≤ q2)
    (hNA : q2 ≤ levelsNotional (b.asks.map (fun e => e.2)))
    (hNB : q2 ≤ levelsNotional (b.bids.map (fun e => e.2))) :
    (b.calculate_market_order_cost q1 true).2.1
      ≤ (b.calculate_market_order_cost q2 true).2.1
    ∧ (b.calculate_market_order_cost q2 false).2.1
      ≤ (b.calculate_market_order_cost q1 false).2.1 := by
  have hq2 : 0 < q2 := lt_of_lt_of_le hq1 h12
  have hmid : b.get_mid_price = some ((bb + ba) / 2) := by
    simp [OrderBookQ.get_mid_price, hbb, hba]
  have hAne : b.asks.map (fun e => e.2) ≠ [] := by
    intro hnil
    rw [hnil] at hNA
    simp only [levelsNotional, List.map_nil, List.sum_nil] at hNA
    linarith
  have hBne : b.bids.map (fun e => e.2) ≠ [] := by
    intro hnil
    rw [hnil] at hNB
    simp only [levelsNotional, List.map_nil, List.sum_nil] at hNB
    linarith
  constructor
  · have hQ1 := walkUsd_qty_pos (b.asks.map (fun e => e.2)) q1 hposA hAne hq1
    have hQ2 := walkUsd_qty_pos (b.asks.map (fun e => e.2)) q2 hposA hAne hq2
    have hc1 : (walkUsd (b.asks.map (fun e => e.2)) q1).1 = q1 := by
      rw [walkUsd_cost _ q1 hposA hq1]
      exact min_eq_left (le_trans h12 hNA)
    have hc2 : (walkUsd (b.asks.map (fun e => e.2)) q2).1 = q2 := by
      rw [walkUsd_cost _ q2 hposA hq2]
      exact min_eq_left hNA
    obtain ⟨_, ha1⟩ := calculate_market_order_cost_eq b q1 true _ hmid hq1
    obtain ⟨_, ha2⟩ := calculate_market_order_cost_eq b q2 true _ hmid hq2
    simp only [eq_self_iff_true, Bool.false_eq_true, ite_true, ite_false] at ha1 ha2
    rw [ha1]
    rw [ha2]
    rw [if_pos hQ1]
    rw [if_pos hQ2]
    rw [hc1]
    rw [hc2]
    rw [div_le_div_iff₀ hQ1 hQ2]
    have hmono := walkUsd_mono_buy (b.asks.map (fun e => e.2)) q1 q2 hposA hsortA hq1 h12
    linarith [hmono]
  · have hQ1 := walkUsd_qty_pos (b.bids.map (fun e => e.2)) q1 hposB hBne hq1
    have hQ2 := walkUsd_qty_pos (b.bids.map (fun e => e.2)) q2 hposB hBne hq2
    have hc1 : (walkUsd (b.bids.map (fun e => e.2)) q1).1 = q1 := by
      rw [walkUsd_cost _ q1 hposB hq1]
      exact min_eq_left (le_trans h12 hNB)
    have hc2 : (walkUsd (b.bids.map (fun e => e.2)) q2).1 = q2 := by
      rw [walkUsd_cost _ q2 hposB hq2]
      exact min_eq_left hNB
    obtain ⟨_, ha1⟩ := calculate_market_order_cost_eq b q1 false _ hmid hq1
    obtain ⟨_, ha2⟩ := calculate_market_order_cost_eq b q2 false _ hmid hq2
    simp only [eq_self_iff_true, Bool.false_eq_true, ite_true, ite_false] at ha1 ha2
    rw [ha1, ha2, if_pos hQ1, if_pos hQ2, hc1, hc2]
    rw [div_le_div_iff₀ hQ2 hQ1]
    have hmono := walkUsd_mono_sell (b.bids.map (fun e => e.2)) q1 q2 hposB hsortB hq1
      h12 hNB
    linarith [hmono]

/-- Witness for C5 at a concrete two-sided book and order sizes 50 ≤ 150. -/
theorem market_order_avg_price_monotone_witness :
    (({ bids := [(-99, (99, 1)), (-98, (98, 1))], asks := [(100, (100, 1)), (101, (101, 1))] } : OrderBookQ).calculate_market_order_cost 50 true).2.1
      ≤ (({ bids := [(-99, (99, 1)), (-98, (98, 1))], asks := [(100, (100, 1)), (101, (101, 1))] } : OrderBookQ).calculate_market_order_cost 150 true).2.1
    ∧ (({ bids := [(-99, (99, 1)), (-98, (98, 1))], asks := [(100, (100, 1)), (101, (101, 1))] } : OrderBookQ).calculate_market_order_cost 150 false).2.1
      ≤ (({ bids := [(-99, (99, 1)), (-98, (98, 1))], asks := [(100, (100, 1)), (101, (101, 1))] } : OrderBookQ).calculate_market_order_cost 50 false).2.1 :=
  market_order_avg_price_monotone
    { bids := [(-99, (99, 1)), (-98, (98, 1))], asks := [(100, (100, 1)), (101, (101, 1))] }
    50 150 99 100 rfl rfl
    (by unfold PosLevels; decide) (by unfold PosLevels; decide)
    (by decide) (by decide)
    (by norm_num) (by norm_num)
    (by norm_num [levelsNotional]) (by norm_num [levelsNotional])
